import Mathlib

set_option maxHeartbeats 1000000

/-!
Shallow embedding of the navigation generator `src/generate_nav.py` of the
tau2-documentation repository, together with proofs settling the frozen
claims about it.

Modelling conventions:
* Python strings are Lean `String`s; all character-level operations
  (strip/lower/startswith/regex fragments) are embedded as explicit
  functions on `List Char`, restricted to the ASCII behaviour the
  repository's AsciiDoc sources exercise.
* Files are sequences of lines (the Python code reads every file through
  `read_text_lines`, i.e. `splitlines`), so the file system is a finite
  association list from absolute path component lists to line lists.
* Filesystem paths are lists of components; `Path.resolve` is modelled by
  component normalisation (no symlinks in the repository).
-/

namespace GenNav

/-- The whitespace class of Python's `str.strip` / `re \s` (ASCII part):
space, tab, newline, carriage return, vertical tab, form feed. -/
def wsC (c : Char) : Bool :=
  c.toNat == 32 || c.toNat == 9 || c.toNat == 10 || c.toNat == 13 ||
    c.toNat == 11 || c.toNat == 12

/-- The word class of `re \w` (ASCII part): digits, letters, underscore. -/
def isWordC (c : Char) : Bool :=
  (48 ≤ c.toNat && c.toNat ≤ 57) || (65 ≤ c.toNat && c.toNat ≤ 90) ||
    (97 ≤ c.toNat && c.toNat ≤ 122) || c.toNat == 95

/-- ASCII lower-casing of one character (Python `str.lower` on the ASCII
range used by the repository). -/
def lowerC (c : Char) : Char :=
  if h : 65 ≤ c.toNat ∧ c.toNat ≤ 90 then
    Char.ofNatAux (c.toNat + 32) (Or.inl (by omega))
  else c

/-- Drop trailing whitespace of a character list. -/
def dropTrailWS (l : List Char) : List Char :=
  (l.reverse.dropWhile wsC).reverse

/-- Both-ends whitespace trim: Python `str.strip()`. -/
def trimL (l : List Char) : List Char :=
  dropTrailWS (l.dropWhile wsC)

/-- Python `s.strip()` at the `String` level. -/
def strip (s : String) : String := String.mk (trimL s.data)

/-- Python `s.lower()` at the `String` level (ASCII). -/
def lowerS (s : String) : String := String.mk (s.data.map lowerC)

/-- Characters kept by `re.sub(r"[^\w\s-]", "", s)`. -/
def keepC (c : Char) : Bool := isWordC c || wsC c || c == '-'

/-- `re.sub(r"\s+", "-", s)`: replace each maximal whitespace run by one
hyphen.  The flag records whether the previous character was whitespace. -/
def squashWS : Bool → List Char → List Char
  | _, [] => []
  | prev, c :: cs =>
    if wsC c then
      (if prev then squashWS true cs else '-' :: squashWS true cs)
    else c :: squashWS false cs

/-- `re.sub(r"-{2,}", "-", s)`: collapse hyphen runs to a single hyphen.
The flag records whether the previous character was a hyphen. -/
def collapseDash : Bool → List Char → List Char
  | _, [] => []
  | prev, c :: cs =>
    if c == '-' then
      (if prev then collapseDash true cs else '-' :: collapseDash true cs)
    else c :: collapseDash false cs

/-- Python `s.strip("-")`. -/
def stripDash (l : List Char) : List Char :=
  ((l.dropWhile (· == '-')).reverse.dropWhile (· == '-')).reverse

/-- The slug pipeline of `make_anchor_from_title` on character lists:
strip, lower, remove punctuation, whitespace to hyphen, collapse hyphen
runs, trim hyphens. -/
def slugL (l : List Char) : List Char :=
  stripDash (collapseDash false (squashWS false
    (List.filter keepC (List.map lowerC (trimL l)))))

/-- `make_anchor_from_title` of generate_nav.py. -/
def make_anchor_from_title (s : String) : String := String.mk (slugL s.data)

example : make_anchor_from_title "  Hello,  World--Now! " = "hello-world-now" := by decide
example : make_anchor_from_title "hello-world-now" = "hello-world-now" := by decide

/-! ### Character-level facts used for the slug idempotence claim -/

theorem toNat_lowerC (c : Char) (h1 : 65 ≤ c.toNat) (h2 : c.toNat ≤ 90) :
    (lowerC c).toNat = c.toNat + 32 := by
  unfold lowerC
  rw [dif_pos ⟨h1, h2⟩]
  rfl

theorem lowerC_of_not_upper (c : Char) (h : ¬(65 ≤ c.toNat ∧ c.toNat ≤ 90)) :
    lowerC c = c := dif_neg h

theorem lowerC_not_upper (c : Char) :
    ¬(65 ≤ (lowerC c).toNat ∧ (lowerC c).toNat ≤ 90) := by
  by_cases h : 65 ≤ c.toNat ∧ c.toNat ≤ 90
  · rw [toNat_lowerC c h.1 h.2]
    omega
  · rw [lowerC_of_not_upper c h]
    exact h

theorem word_not_ws (c : Char) (h : isWordC c = true) : wsC c = false := by
  simp only [isWordC, Bool.or_eq_true, Bool.and_eq_true, decide_eq_true_eq,
    beq_iff_eq] at h
  simp only [wsC, Bool.or_eq_false_iff, beq_eq_false_iff_ne, ne_eq]
  omega

theorem mem_squashWS {c : Char} :
    ∀ (b : Bool) (l : List Char), c ∈ squashWS b l →
      c = '-' ∨ (c ∈ l ∧ wsC c = false) := by
  intro b l
  induction l generalizing b with
  | nil => simp [squashWS]
  | cons d ds ih =>
    intro h
    by_cases hw : wsC d
    · simp only [squashWS, if_pos hw] at h
      cases b with
      | true =>
        rcases ih true h with h1 | ⟨h1, h2⟩
        · exact Or.inl h1
        · exact Or.inr ⟨List.mem_cons_of_mem _ h1, h2⟩
      | false =>
        simp only [if_neg (by decide : ¬(false = true)), List.mem_cons] at h
        rcases h with h | h
        · exact Or.inl h
        · rcases ih true h with h1 | ⟨h1, h2⟩
          · exact Or.inl h1
          · exact Or.inr ⟨List.mem_cons_of_mem _ h1, h2⟩
    · simp only [squashWS, if_neg hw, List.mem_cons] at h
      rcases h with h | h
      · subst h
        exact Or.inr ⟨List.mem_cons_self _ _, by simpa using hw⟩
      · rcases ih false h with h1 | ⟨h1, h2⟩
        · exact Or.inl h1
        · exact Or.inr ⟨List.mem_cons_of_mem _ h1, h2⟩

theorem mem_collapseDash {c : Char} :
    ∀ (b : Bool) (l : List Char), c ∈ collapseDash b l → c ∈ l := by
  intro b l
  induction l generalizing b with
  | nil => simp [collapseDash]
  | cons d ds ih =>
    intro h
    by_cases hd : d == '-'
    · simp only [collapseDash, if_pos hd] at h
      cases b with
      | true => exact List.mem_cons_of_mem _ (ih true h)
      | false =>
        simp only [if_neg (by decide : ¬(false = true)), List.mem_cons] at h
        rcases h with h | h
        · subst h
          simp only [beq_iff_eq] at hd
          subst hd
          exact List.mem_cons_self _ _
        · exact List.mem_cons_of_mem _ (ih true h)
    · simp only [collapseDash, if_neg hd, List.mem_cons] at h
      rcases h with h | h
      · exact h ▸ List.mem_cons_self _ _
      · exact List.mem_cons_of_mem _ (ih false h)

theorem mem_stripDash {c : Char} {l : List Char} (h : c ∈ stripDash l) : c ∈ l := by
  unfold stripDash at h
  rw [List.mem_reverse] at h
  have h1 := (List.dropWhile_sublist (l := (l.dropWhile (· == '-')).reverse)
    (p := (· == '-'))).mem h
  rw [List.mem_reverse] at h1
  exact (List.dropWhile_sublist (l := l) (p := (· == '-'))).mem h1

theorem slug_chars (l : List Char) :
    ∀ c ∈ slugL l, (isWordC c = true ∨ c = '-') ∧
      ¬(65 ≤ c.toNat ∧ c.toNat ≤ 90) := by
  intro c hc
  unfold slugL at hc
  have h1 := mem_stripDash hc
  have h2 := mem_collapseDash _ _ h1
  rcases mem_squashWS _ _ h2 with h3 | ⟨h3, hws⟩
  · subst h3
    exact ⟨Or.inr rfl, by decide⟩
  · have h4 := List.mem_filter.mp h3
    rcases List.mem_map.mp h4.1 with ⟨d, _, hd⟩
    have hup : ¬(65 ≤ c.toNat ∧ c.toNat ≤ 90) := hd ▸ lowerC_not_upper d
    have hkeep := h4.2
    simp only [keepC, Bool.or_eq_true, beq_iff_eq] at hkeep
    rcases hkeep with (hk | hk) | hk
    · exact ⟨Or.inl hk, hup⟩
    · rw [hws] at hk
      exact absurd hk (by simp)
    · exact ⟨Or.inr hk, hup⟩

/-- Adjacent characters of a well-formed slug are never both hyphens. -/
def DD (a b : Char) : Prop := ¬(a = '-' ∧ b = '-')

theorem collapse_head_ne :
    ∀ (l : List Char) (c : Char), (collapseDash true l).head? = some c → c ≠ '-' := by
  intro l
  induction l with
  | nil => simp [collapseDash]
  | cons d ds ih =>
    by_cases hd : d == '-'
    · simp only [collapseDash, if_pos hd, if_pos rfl]
      exact ih
    · intro c h
      simp only [collapseDash, if_neg hd, List.head?_cons, Option.some.injEq] at h
      subst h
      simpa using hd

theorem collapse_chain (b : Bool) (l : List Char) :
    List.Chain' DD (collapseDash b l) := by
  induction l generalizing b with
  | nil => simp [collapseDash]
  | cons d ds ih =>
    by_cases hd : d == '-'
    · cases b with
      | true =>
        simpa only [collapseDash, if_pos hd, if_pos rfl] using ih true
      | false =>
        simp only [collapseDash, if_pos hd, if_neg (by decide : ¬(false = true))]
        rw [List.chain'_cons']
        refine ⟨?_, ih true⟩
        intro e he
        have := collapse_head_ne ds e he
        exact fun hh => this hh.2
    · simp only [collapseDash, if_neg hd]
      rw [List.chain'_cons']
      refine ⟨?_, ih false⟩
      intro e _
      exact fun hh => (by simpa using hd : d ≠ '-') hh.1

theorem chain_dropWhile {R : Char → Char → Prop} (p : Char → Bool) :
    ∀ l : List Char, List.Chain' R l → List.Chain' R (l.dropWhile p) := by
  intro l h
  induction l with
  | nil => exact h
  | cons d ds ih =>
    by_cases hp : p d
    · rw [List.dropWhile_cons_of_pos hp]
      exact ih h.tail
    · rwa [List.dropWhile_cons_of_neg hp]

theorem chain_reverse_DD {l : List Char} (h : List.Chain' DD l) :
    List.Chain' DD l.reverse := by
  rw [List.chain'_reverse]
  exact h.imp (fun a b hab => fun hh => hab ⟨hh.2, hh.1⟩)

theorem chain_stripDash (l : List Char) (h : List.Chain' DD l) :
    List.Chain' DD (stripDash l) := by
  unfold stripDash
  exact chain_reverse_DD (chain_dropWhile _ _ (chain_reverse_DD (chain_dropWhile _ _ h)))

theorem dropWhile_head_false (p : Char → Bool) :
    ∀ (l : List Char) (c : Char), (l.dropWhile p).head? = some c → p c = false := by
  intro l
  induction l with
  | nil => simp
  | cons d ds ih =>
    intro c h
    by_cases hp : p d
    · rw [List.dropWhile_cons_of_pos hp] at h
      exact ih c h
    · rw [List.dropWhile_cons_of_neg hp, List.head?_cons] at h
      cases h
      simpa using hp

theorem stripDash_last_ne (l : List Char) :
    ∀ c, (stripDash l).getLast? = some c → c ≠ '-' := by
  intro c h
  unfold stripDash at h
  rw [List.getLast?_reverse] at h
  have := dropWhile_head_false (· == '-') _ _ h
  simpa using this

theorem stripDash_head_ne (l : List Char) :
    ∀ c, (stripDash l).head? = some c → c ≠ '-' := by
  intro c h
  have h1 : (l.dropWhile (· == '-')).reverse.dropWhile (· == '-') <:+
      (l.dropWhile (· == '-')).reverse := List.dropWhile_suffix _
  have h2 := List.reverse_prefix.mpr h1
  rw [List.reverse_reverse] at h2
  have h2' : stripDash l <+: l.dropWhile (· == '-') := h2
  rcases h2' with ⟨t, ht⟩
  have hmh : (l.dropWhile (· == '-')).head? = some c := by
    rcases he : stripDash l with _ | ⟨d, ds⟩
    · rw [he] at h
      simp at h
    · rw [he] at h ht
      simp only [List.head?_cons, Option.some.injEq] at h
      subst h
      rw [← ht]
      rfl
  have := dropWhile_head_false (· == '-') l c hmh
  simpa using this

/-! ### Stage-identity lemmas on already-slugified strings -/

theorem dropWhile_eq_self_of (p : Char → Bool) (l : List Char)
    (h : ∀ c ∈ l, p c = false) : l.dropWhile p = l := by
  cases l with
  | nil => rfl
  | cons d ds =>
    rw [List.dropWhile_cons_of_neg]
    simp [h d (List.mem_cons_self _ _)]

theorem trimL_eq_self (l : List Char) (h : ∀ c ∈ l, wsC c = false) :
    trimL l = l := by
  unfold trimL dropTrailWS
  rw [dropWhile_eq_self_of _ _ h,
    dropWhile_eq_self_of _ _ (fun c hc => h c (List.mem_reverse.mp hc)),
    List.reverse_reverse]

theorem map_lowerC_eq_self (l : List Char)
    (h : ∀ c ∈ l, ¬(65 ≤ c.toNat ∧ c.toNat ≤ 90)) : l.map lowerC = l := by
  induction l with
  | nil => rfl
  | cons d ds ih =>
    rw [List.map_cons, lowerC_of_not_upper d (h d (List.mem_cons_self _ _)),
      ih (fun c hc => h c (List.mem_cons_of_mem _ hc))]

theorem squash_eq_self (l : List Char) (h : ∀ c ∈ l, wsC c = false) :
    ∀ b, squashWS b l = l := by
  induction l with
  | nil => intro b; rfl
  | cons d ds ih =>
    intro b
    unfold squashWS
    rw [if_neg (by simp [h d (List.mem_cons_self _ _)]),
      ih (fun c hc => h c (List.mem_cons_of_mem _ hc)) false]

theorem collapse_eq_self :
    ∀ l : List Char, List.Chain' DD l →
      collapseDash false l = l ∧
        ((∀ c, l.head? = some c → c ≠ '-') → collapseDash true l = l) := by
  intro l
  induction l with
  | nil => exact fun _ => ⟨rfl, fun _ => rfl⟩
  | cons d ds ih =>
    intro h
    rcases List.chain'_cons'.mp h with ⟨hhd, htl⟩
    have ihds := ih htl
    constructor
    · by_cases hd : d == '-'
      · simp only [collapseDash, if_pos hd, if_neg (by decide : ¬(false = true))]
        simp only [beq_iff_eq] at hd
        subst hd
        rw [ihds.2 (fun c hc => fun he => (hhd c hc) ⟨rfl, he⟩)]
      · simp only [collapseDash, if_neg hd]
        rw [ihds.1]
    · intro hh
      have hd : ¬(d == '-') := by
        simpa using hh d rfl
      simp only [collapseDash, if_neg hd]
      rw [ihds.1]

theorem stripDash_eq_self (l : List Char)
    (hh : ∀ c, l.head? = some c → c ≠ '-')
    (hl : ∀ c, l.getLast? = some c → c ≠ '-') : stripDash l = l := by
  have h1 : l.dropWhile (· == '-') = l := by
    cases l with
    | nil => rfl
    | cons d ds =>
      rw [List.dropWhile_cons_of_neg]
      simpa using hh d rfl
  unfold stripDash
  rw [h1]
  rcases hr : l.reverse with _ | ⟨d, ds⟩
  · have : l = [] := by simpa using congrArg List.reverse hr
    simp [this]
  · have hd : d ≠ '-' := by
      apply hl
      rw [← List.head?_reverse, hr, List.head?_cons]
    have h2 : (d :: ds).dropWhile (· == '-') = d :: ds :=
      List.dropWhile_cons_of_neg (by simpa using hd)
    rw [h2, ← hr, List.reverse_reverse]

theorem slug_idem (l : List Char) : slugL (slugL l) = slugL l := by
  have hch := slug_chars l
  have hws : ∀ c ∈ slugL l, wsC c = false := by
    intro c hc
    rcases (hch c hc).1 with h | h
    · exact word_not_ws c h
    · subst h; decide
  have hkeep : ∀ c ∈ slugL l, keepC c = true := by
    intro c hc
    rcases (hch c hc).1 with h | h
    · simp [keepC, h]
    · simp [keepC, h]
  have hnup : ∀ c ∈ slugL l, ¬(65 ≤ c.toNat ∧ c.toNat ≤ 90) :=
    fun c hc => (hch c hc).2
  have hchain : List.Chain' DD (slugL l) :=
    chain_stripDash _ (collapse_chain _ _)
  have step : slugL (slugL l) =
      stripDash (collapseDash false (squashWS false
        (List.filter keepC (List.map lowerC (trimL (slugL l)))))) := rfl
  rw [step, trimL_eq_self _ hws, map_lowerC_eq_self _ hnup,
    List.filter_eq_self.mpr hkeep, squash_eq_self _ hws false,
    (collapse_eq_self _ hchain).1]
  exact stripDash_eq_self (slugL l)
    (stripDash_head_ne (collapseDash false (squashWS false
      (List.filter keepC (List.map lowerC (trimL l))))))
    (stripDash_last_ne (collapseDash false (squashWS false
      (List.filter keepC (List.map lowerC (trimL l))))))

/-! ### Line classification and `get_title_and_anchor` -/

/-- Python `s.startswith(p)`. -/
def startsW (s p : String) : Bool := p.data.isPrefixOf s.data

/-- Python `s.endswith(p)`. -/
def endsW (s p : String) : Bool := p.data.isSuffixOf s.data

/-- Lines skipped by the scanners of generate_nav.py: blank, comment,
attribute definition, include directive (tested on the stripped line). -/
def isSkipL (s : String) : Bool :=
  s == "" || startsW s "//" || startsW s ":" || startsW s "include::"

/-- A stripped line of the form `[[...]]`. -/
def isAnchorL (s : String) : Bool := startsW s "[[" && endsW s "]]"

/-- `line[2:-2].strip()` for an anchor line. -/
def anchorOf (s : String) : String :=
  strip (String.mk ((s.data.drop 2).take (s.data.length - 4)))

/-- The regex `re.match(r"^(=+)\s+(.+)$", line)` on a stripped line,
returning the heading level and the stripped title `m.group(2).strip()`.
(On a stripped line the greedy `\s+` then `(.+)` split is exactly: the
maximal leading `=` run, at least one whitespace, then the non-empty
rest.) -/
def parseHeadingL (s : String) : Option (Nat × String) :=
  if (s.data.takeWhile (· == '=')).isEmpty then none
  else
    match s.data.drop (s.data.takeWhile (· == '=')).length with
    | [] => none
    | c :: rest =>
      if wsC c then
        if ((c :: rest).dropWhile wsC).isEmpty then none
        else some ((s.data.takeWhile (· == '=')).length,
          strip (String.mk ((c :: rest).dropWhile wsC)))
      else none

/-- The document-title test
`line.startswith("= ") and not line.startswith("== ")`. -/
def isDocTitleLine (s : String) : Bool := startsW s "= " && !(startsW s "== ")

/-- `line.lstrip("= ").strip()`. -/
def docTitleOf (s : String) : String :=
  strip (String.mk (s.data.dropWhile (fun c => c == '=' || c == ' ')))

/-- The scanning loop of `get_title_and_anchor`.  The Python code has a
main loop plus an inner `find next heading` loop entered after an anchor
marker; when the inner loop `break`s it re-examines the very same line in
the main loop, and at that point the line is known to be neither
skippable nor one that returns, so the two loops fuse into a single
scanner over the remaining lines with an `inner` flag (`inner = true`
inside the `find next heading` loop).  `anchor` is the accumulator
variable of the Python code. -/
def gtaGo (doc inner : Bool) (anchor : String) : List String → String × String
  | [] => ("Untitled", anchor)
  | l :: ls =>
    let s := strip l
    if isSkipL s then gtaGo doc inner anchor ls
    else if isAnchorL s then gtaGo doc true (anchorOf s) ls
    else if doc then
      (if isDocTitleLine s then
        (docTitleOf s,
          if inner then anchor
          else (if anchor == "" then make_anchor_from_title (docTitleOf s) else anchor))
      else
        match parseHeadingL s with
        | some (lv, t) => if inner && lv == 1 then (t, anchor) else gtaGo doc false anchor ls
        | none => gtaGo doc false anchor ls)
    else
      match parseHeadingL s with
      | some (lv, t) =>
        if 2 ≤ lv then (t, if anchor == "" then make_anchor_from_title t else anchor)
        else gtaGo doc false anchor ls
      | none => gtaGo doc false anchor ls

/-- `get_title_and_anchor` of generate_nav.py, over the file's lines
(`read_text_lines` is applied by the caller). -/
def get_title_and_anchor (lines : List String) (prefer_doc_title : Bool) :
    String × String :=
  if lines.isEmpty then ("Untitled", "") else gtaGo prefer_doc_title false "" lines

example : get_title_and_anchor ["== Intro"] false = ("Intro", "intro") := by decide
example : get_title_and_anchor ["[[x]]", "", "== Intro"] false = ("Intro", "x") := by decide
example : get_title_and_anchor ["[[foo]]", "body", "== T"] false = ("T", "foo") := by decide
example : get_title_and_anchor ["= My Book"] true = ("My Book", "my-book") := by decide
example : get_title_and_anchor ["[[b]]", "= My Book"] true = ("My Book", "b") := by decide
example : get_title_and_anchor ["text", "more"] false = ("Untitled", "") := by decide

/-- C8: the anchor-derivation (slug) function — lowercase, strip
punctuation, whitespace to hyphen, collapse hyphen runs, trim hyphens —
is idempotent: applying `make_anchor_from_title` to its own output yields
the same output. -/
theorem claim8_slug_idempotent (s : String) :
    make_anchor_from_title (make_anchor_from_title s) = make_anchor_from_title s := by
  show String.mk (slugL (String.mk (slugL s.data)).data) = String.mk (slugL s.data)
  exact congrArg String.mk (slug_idem s.data)

/-! ### Trim fixpoint lemmas -/

theorem length_dropTrailWS_le (l : List Char) : (dropTrailWS l).length ≤ l.length := by
  unfold dropTrailWS
  rw [List.length_reverse]
  calc (l.reverse.dropWhile wsC).length ≤ l.reverse.length := (List.dropWhile_sublist (l := l.reverse) wsC).length_le
    _ = l.length := List.length_reverse l

theorem length_trimL_le (l : List Char) : (trimL l).length ≤ l.length := by
  unfold trimL
  calc (dropTrailWS (l.dropWhile wsC)).length ≤ (l.dropWhile wsC).length :=
        length_dropTrailWS_le _
    _ ≤ l.length := (List.dropWhile_sublist (l := l) wsC).length_le

theorem dropWhile_eq_self_of_length {p : Char → Bool} {l : List Char}
    (h : (l.dropWhile p).length = l.length) : l.dropWhile p = l := by
  cases l with
  | nil => rfl
  | cons d ds =>
    by_cases hp : p d
    · rw [List.dropWhile_cons_of_pos hp] at h
      have := (List.dropWhile_sublist (l := ds) p).length_le
      simp only [List.length_cons] at h
      omega
    · exact List.dropWhile_cons_of_neg hp

theorem trimL_fix_dropWhile {l : List Char} (h : trimL l = l) :
    l.dropWhile wsC = l := by
  apply dropWhile_eq_self_of_length
  have h1 : (trimL l).length ≤ (l.dropWhile wsC).length := length_dropTrailWS_le _
  have h2 := (List.dropWhile_sublist (l := l) wsC).length_le
  rw [h] at h1
  omega

theorem trimL_fix_dropTrail {l : List Char} (h : trimL l = l) :
    dropTrailWS l = l := by
  have hd := trimL_fix_dropWhile h
  unfold trimL at h
  rwa [hd] at h

theorem trimL_fix_head {l : List Char} (h : trimL l = l) :
    ∀ c, l.head? = some c → wsC c = false := by
  intro c hc
  have hd := trimL_fix_dropWhile h
  cases l with
  | nil => simp at hc
  | cons d ds =>
    simp only [List.head?_cons, Option.some.injEq] at hc
    subst hc
    by_cases hp : wsC d
    · rw [List.dropWhile_cons_of_pos hp] at hd
      have hle := (List.dropWhile_sublist (l := ds) wsC).length_le
      have := congrArg List.length hd
      simp only [List.length_cons] at this
      omega
    · simpa using hp

theorem trimL_fix_last {l : List Char} (h : trimL l = l) :
    ∀ c, l.getLast? = some c → wsC c = false := by
  intro c hc
  have hd := trimL_fix_dropTrail h
  unfold dropTrailWS at hd
  rw [← List.head?_reverse] at hc
  cases hr : l.reverse with
  | nil => rw [hr] at hc; simp at hc
  | cons d ds =>
    rw [hr] at hc
    simp only [List.head?_cons, Option.some.injEq] at hc
    subst hc
    by_cases hp : wsC d
    · rw [hr, List.dropWhile_cons_of_pos hp] at hd
      have h1 := congrArg List.length hd
      have h2 := (List.dropWhile_sublist (l := ds) wsC).length_le
      rw [List.length_reverse] at h1
      have h3 : l.length = ds.length + 1 := by
        have := congrArg List.length hr
        rw [List.length_reverse] at this
        simpa using this
      omega
    · simpa using hp

theorem trimL_eq_self_of_ends (l : List Char)
    (h1 : ∀ c, l.head? = some c → wsC c = false)
    (h2 : ∀ c, l.getLast? = some c → wsC c = false) : trimL l = l := by
  have hfront : l.dropWhile wsC = l := by
    cases l with
    | nil => rfl
    | cons d ds =>
      apply List.dropWhile_cons_of_neg
      simp [h1 d rfl]
  unfold trimL
  rw [hfront]
  unfold dropTrailWS
  cases hr : l.reverse with
  | nil =>
    have : l = [] := by simpa using congrArg List.reverse hr
    simp [this]
  | cons d ds =>
    have hd : wsC d = false := by
      apply h2
      rw [← List.head?_reverse, hr, List.head?_cons]
    rw [List.dropWhile_cons_of_neg (by simp [hd]), ← hr, List.reverse_reverse]

theorem strip_fix_data_head {t : String} (h : strip t = t) :
    ∀ c, t.data.head? = some c → wsC c = false := by
  have : trimL t.data = t.data := congrArg String.data h
  exact trimL_fix_head this

theorem strip_fix_data_last {t : String} (h : strip t = t) :
    ∀ c, t.data.getLast? = some c → wsC c = false := by
  have : trimL t.data = t.data := congrArg String.data h
  exact trimL_fix_last this

theorem data_ne_nil_of_ne_empty {t : String} (h : t ≠ "") : t.data ≠ [] := by
  intro hd
  apply h
  cases t with
  | mk l =>
    show String.mk l = String.mk []
    exact congrArg String.mk hd

/-! ### One-step equations for the `get_title_and_anchor` scanner -/

theorem gtaGo_skip (doc inner : Bool) (anchor l : String) (ls : List String)
    (h : isSkipL (strip l) = true) :
    gtaGo doc inner anchor (l :: ls) = gtaGo doc inner anchor ls := by
  simp [gtaGo, h]

theorem gtaGo_anchor (doc inner : Bool) (anchor l : String) (ls : List String)
    (h1 : isSkipL (strip l) = false) (h2 : isAnchorL (strip l) = true) :
    gtaGo doc inner anchor (l :: ls) = gtaGo doc true (anchorOf (strip l)) ls := by
  simp [gtaGo, h1, h2]

theorem gtaGo_page_plain (inner : Bool) (anchor l : String) (ls : List String)
    (h1 : isSkipL (strip l) = false) (h2 : isAnchorL (strip l) = false)
    (h3 : ∀ lv t, parseHeadingL (strip l) = some (lv, t) → lv < 2) :
    gtaGo false inner anchor (l :: ls) = gtaGo false false anchor ls := by
  simp only [gtaGo, h1, h2, Bool.false_eq_true, if_false]
  cases hp : parseHeadingL (strip l) with
  | none => rfl
  | some p =>
    rcases p with ⟨lv, t⟩
    have := h3 lv t hp
    simp [Nat.not_le.mpr this]

theorem gtaGo_page_heading (inner : Bool) (anchor l : String) (ls : List String)
    (lv : Nat) (t : String)
    (h1 : isSkipL (strip l) = false) (h2 : isAnchorL (strip l) = false)
    (h3 : parseHeadingL (strip l) = some (lv, t)) (h4 : 2 ≤ lv) :
    gtaGo false inner anchor (l :: ls) =
      (t, if anchor == "" then make_anchor_from_title t else anchor) := by
  simp [gtaGo, h1, h2, h3, h4]

theorem gtaGo_doc_plain (inner : Bool) (anchor l : String) (ls : List String)
    (h1 : isSkipL (strip l) = false) (h2 : isAnchorL (strip l) = false)
    (h3 : isDocTitleLine (strip l) = false)
    (h4 : inner = false ∨ ∀ t, parseHeadingL (strip l) ≠ some (1, t)) :
    gtaGo true inner anchor (l :: ls) = gtaGo true false anchor ls := by
  simp only [gtaGo, h1, h2, h3, Bool.false_eq_true, if_false, if_true]
  cases hp : parseHeadingL (strip l) with
  | none => rfl
  | some p =>
    rcases p with ⟨lv, t⟩
    rcases h4 with h4 | h4
    · simp [h4]
    · have : lv ≠ 1 := fun he => h4 t (he ▸ hp)
      simp [this]

theorem gtaGo_doc_title (inner : Bool) (anchor l : String) (ls : List String)
    (h1 : isSkipL (strip l) = false) (h2 : isAnchorL (strip l) = false)
    (h3 : isDocTitleLine (strip l) = true) :
    gtaGo true inner anchor (l :: ls) =
      (docTitleOf (strip l),
        if inner then anchor
        else (if anchor == "" then
          make_anchor_from_title (docTitleOf (strip l)) else anchor)) := by
  simp [gtaGo, h1, h2, h3]

/-! ### Shape computations for constructed lines -/

theorem data_append (s u : String) : (s ++ u).data = s.data ++ u.data := rfl

theorem mk_data (s : String) : String.mk s.data = s := by
  cases s
  rfl

theorem beq_empty_eq_false {s : String} (h : s.data ≠ []) : (s == "") = false := by
  rw [beq_eq_false_iff_ne]
  intro he
  apply h
  rw [he]

theorem isSkipL_of_head {s : String} {c : Char} {rest : List Char}
    (hdata : s.data = c :: rest)
    (h1 : c ≠ '/') (h2 : c ≠ ':') (h3 : c ≠ 'i') : isSkipL s = false := by
  have e1 : (s == "") = false := beq_empty_eq_false (by rw [hdata]; simp)
  have e2 : startsW s "//" = false := by
    rw [startsW, hdata]
    show (['/', '/'].isPrefixOf (c :: rest)) = false
    simp only [List.isPrefixOf, Bool.and_eq_false_iff, beq_eq_false_iff_ne, ne_eq]
    exact Or.inl (fun he => h1 he.symm)
  have e3 : startsW s ":" = false := by
    rw [startsW, hdata]
    show ([':'].isPrefixOf (c :: rest)) = false
    simp only [List.isPrefixOf, Bool.and_eq_false_iff, beq_eq_false_iff_ne, ne_eq]
    exact Or.inl (fun he => h2 he.symm)
  have e4 : startsW s "include::" = false := by
    rw [startsW, hdata]
    show (('i' :: "nclude::".data).isPrefixOf (c :: rest)) = false
    simp only [List.isPrefixOf, Bool.and_eq_false_iff, beq_eq_false_iff_ne, ne_eq]
    exact Or.inl (fun he => h3 he.symm)
  simp [isSkipL, e1, e2, e3, e4]

theorem isAnchorL_of_head {s : String} {c : Char} {rest : List Char}
    (hdata : s.data = c :: rest) (h1 : c ≠ '[') : isAnchorL s = false := by
  have e : startsW s "[[" = false := by
    rw [startsW, hdata]
    show (['[', '['].isPrefixOf (c :: rest)) = false
    simp only [List.isPrefixOf, Bool.and_eq_false_iff, beq_eq_false_iff_ne, ne_eq]
    exact Or.inl (fun he => h1 he.symm)
  simp [isAnchorL, e]

/-- The character-list shape of the constructed line `"[[" ++ a ++ "]]"`. -/
theorem anchor_line_data (a : String) :
    ("[[" ++ a ++ "]]").data = '[' :: '[' :: (a.data ++ [']', ']']) := by
  rw [data_append, data_append]
  rfl

theorem anchor_line_strip (a : String) :
    strip ("[[" ++ a ++ "]]") = "[[" ++ a ++ "]]" := by
  have hd := anchor_line_data a
  have hends : trimL ('[' :: '[' :: (a.data ++ [']', ']'])) =
      '[' :: '[' :: (a.data ++ [']', ']']) := by
    apply trimL_eq_self_of_ends
    · intro c hc
      simp only [List.head?_cons, Option.some.injEq] at hc
      subst hc
      decide
    · intro c hc
      have hshape : ('[' :: '[' :: (a.data ++ [']', ']'])) =
          (('[' :: '[' :: a.data ++ [']']) ++ [']']) := by simp
      rw [hshape, List.getLast?_concat] at hc
      cases hc
      decide
  show String.mk (trimL ("[[" ++ a ++ "]]").data) = "[[" ++ a ++ "]]"
  rw [hd, hends, ← hd, mk_data]

theorem anchor_line_skip (a : String) :
    isSkipL (strip ("[[" ++ a ++ "]]")) = false := by
  rw [anchor_line_strip]
  exact isSkipL_of_head (anchor_line_data a) (by decide) (by decide) (by decide)

theorem anchor_line_is_anchor (a : String) :
    isAnchorL (strip ("[[" ++ a ++ "]]")) = true := by
  rw [anchor_line_strip]
  have hd := anchor_line_data a
  have e1 : startsW ("[[" ++ a ++ "]]") "[[" = true := by
    rw [startsW, hd]
    show (['[', '['].isPrefixOf ('[' :: '[' :: (a.data ++ [']', ']']))) = true
    simp [List.isPrefixOf]
  have e2 : endsW ("[[" ++ a ++ "]]") "]]" = true := by
    rw [endsW, hd, List.isSuffixOf]
    have hlit : ("]]" : String).data.reverse = [']', ']'] := rfl
    have hrev : ('[' :: '[' :: (a.data ++ [']', ']'])).reverse =
        ']' :: ']' :: (a.data.reverse ++ ['[', '[']) := by
      simp
    rw [hlit, hrev]
    simp [List.isPrefixOf]
  simp [isAnchorL, e1, e2]

theorem anchor_line_anchorOf (a : String) (ha : strip a = a) :
    anchorOf (strip ("[[" ++ a ++ "]]")) = a := by
  rw [anchor_line_strip]
  unfold anchorOf
  rw [anchor_line_data]
  have hlen : ('[' :: '[' :: (a.data ++ [']', ']'])).length - 4 = a.data.length := by
    simp
  rw [hlen]
  have hdrop : (('[' :: '[' :: (a.data ++ [']', ']'])).drop 2) = a.data ++ [']', ']'] := rfl
  rw [hdrop, List.take_left' rfl]
  show strip (String.mk a.data) = a
  rw [mk_data, ha]

/-- The shape of the page-heading line `"== " ++ t` for a pre-stripped,
non-empty `t`. -/
theorem heading2_data (t : String) :
    ("== " ++ t).data = '=' :: '=' :: ' ' :: t.data := rfl

theorem heading2_strip (t : String) (h1 : strip t = t) (h2 : t ≠ "") :
    strip ("== " ++ t) = "== " ++ t := by
  have hends : trimL ('=' :: '=' :: ' ' :: t.data) = '=' :: '=' :: ' ' :: t.data := by
    apply trimL_eq_self_of_ends
    · intro c hc
      simp only [List.head?_cons, Option.some.injEq] at hc
      subst hc
      decide
    · intro c hc
      have hne := data_ne_nil_of_ne_empty h2
      have hshape : ('=' :: '=' :: ' ' :: t.data) = ['=', '=', ' '] ++ t.data := rfl
      rw [hshape, List.getLast?_append_of_ne_nil _ hne] at hc
      exact strip_fix_data_last h1 c hc
  show String.mk (trimL ("== " ++ t).data) = "== " ++ t
  rw [heading2_data, hends, ← heading2_data, mk_data]

theorem heading2_skip (t : String) (h1 : strip t = t) (h2 : t ≠ "") :
    isSkipL (strip ("== " ++ t)) = false := by
  rw [heading2_strip t h1 h2]
  exact isSkipL_of_head (heading2_data t) (by decide) (by decide) (by decide)

theorem heading2_anchor (t : String) (h1 : strip t = t) (h2 : t ≠ "") :
    isAnchorL (strip ("== " ++ t)) = false := by
  rw [heading2_strip t h1 h2]
  exact isAnchorL_of_head (heading2_data t) (by decide)

theorem heading2_parse (t : String) (h1 : strip t = t) (h2 : t ≠ "") :
    parseHeadingL (strip ("== " ++ t)) = some (2, t) := by
  rw [heading2_strip t h1 h2]
  have htake : (("== " ++ t).data.takeWhile (· == '=')) = ['=', '='] := by
    rw [heading2_data]
    simp [List.takeWhile]
  have hfix : t.data.dropWhile wsC = t.data :=
    trimL_fix_dropWhile (congrArg String.data h1)
  have hdrop : ("== " ++ t).data.drop (['=', '='] : List Char).length = ' ' :: t.data := by
    rw [heading2_data]
    rfl
  have hne : t.data.isEmpty = false := by
    rcases hd : t.data with _ | _
    · exact absurd hd (data_ne_nil_of_ne_empty h2)
    · rfl
  unfold parseHeadingL
  rw [htake, hdrop, if_neg (by decide : ¬((['=', '='] : List Char).isEmpty = true))]
  show (if wsC ' ' = true then
      if ((' ' :: t.data).dropWhile wsC).isEmpty = true then none
      else some ((['=', '='] : List Char).length,
        strip (String.mk ((' ' :: t.data).dropWhile wsC)))
    else none) = some (2, t)
  rw [if_pos (by decide : wsC ' ' = true)]
  have hbody : (' ' :: t.data).dropWhile wsC = t.data := by
    rw [List.dropWhile_cons_of_pos (by decide : wsC ' ' = true), hfix]
  rw [hbody, if_neg (by simp [hne])]
  rw [mk_data, h1]
  rfl

/-- The shape of the document-title line `"= " ++ t` for a pre-stripped,
non-empty `t`. -/
theorem heading1_data (t : String) : ("= " ++ t).data = '=' :: ' ' :: t.data := rfl

theorem heading1_strip (t : String) (h1 : strip t = t) (h2 : t ≠ "") :
    strip ("= " ++ t) = "= " ++ t := by
  have hends : trimL ('=' :: ' ' :: t.data) = '=' :: ' ' :: t.data := by
    apply trimL_eq_self_of_ends
    · intro c hc
      simp only [List.head?_cons, Option.some.injEq] at hc
      subst hc
      decide
    · intro c hc
      have hne := data_ne_nil_of_ne_empty h2
      have hshape : ('=' :: ' ' :: t.data) = ['=', ' '] ++ t.data := rfl
      rw [hshape, List.getLast?_append_of_ne_nil _ hne] at hc
      exact strip_fix_data_last h1 c hc
  show String.mk (trimL ("= " ++ t).data) = "= " ++ t
  rw [heading1_data, hends, ← heading1_data, mk_data]

theorem heading1_skip (t : String) (h1 : strip t = t) (h2 : t ≠ "") :
    isSkipL (strip ("= " ++ t)) = false := by
  rw [heading1_strip t h1 h2]
  exact isSkipL_of_head (heading1_data t) (by decide) (by decide) (by decide)

theorem heading1_anchor (t : String) (h1 : strip t = t) (h2 : t ≠ "") :
    isAnchorL (strip ("= " ++ t)) = false := by
  rw [heading1_strip t h1 h2]
  exact isAnchorL_of_head (heading1_data t) (by decide)

theorem heading1_is_doc_title (t : String) (h1 : strip t = t) (h2 : t ≠ "") :
    isDocTitleLine (strip ("= " ++ t)) = true := by
  rw [heading1_strip t h1 h2]
  have e1 : startsW ("= " ++ t) "= " = true := by
    rw [startsW, heading1_data]
    show (['=', ' '].isPrefixOf ('=' :: ' ' :: t.data)) = true
    simp [List.isPrefixOf]
  have e2 : startsW ("= " ++ t) "== " = false := by
    rw [startsW, heading1_data]
    show (['=', '=', ' '].isPrefixOf ('=' :: ' ' :: t.data)) = false
    simp [List.isPrefixOf]
  simp [isDocTitleLine, e1, e2]

theorem heading1_doc_title_of (t : String) (h1 : strip t = t) (h2 : t ≠ "")
    (h3 : ∀ c, t.data.head? = some c → c ≠ '=') :
    docTitleOf (strip ("= " ++ t)) = t := by
  rw [heading1_strip t h1 h2]
  unfold docTitleOf
  rw [heading1_data]
  have hstep : (('=' :: ' ' :: t.data).dropWhile (fun c => c == '=' || c == ' ')) =
      t.data.dropWhile (fun c => c == '=' || c == ' ') := by
    rw [List.dropWhile_cons_of_pos (by decide), List.dropWhile_cons_of_pos (by decide)]
  rw [hstep]
  have hfix : t.data.dropWhile (fun c => c == '=' || c == ' ') = t.data := by
    rcases hd : t.data with _ | ⟨c, rest⟩
    · rfl
    · apply List.dropWhile_cons_of_neg
      have hne : c ≠ '=' := h3 c (by rw [hd]; rfl)
      have hnw : wsC c = false := strip_fix_data_head h1 c (by rw [hd]; rfl)
      simp only [Bool.or_eq_true, beq_iff_eq, not_or]
      constructor
      · exact hne
      · intro he
        subst he
        exact absurd hnw (by decide)
  rw [hfix]
  rw [mk_data, h1]

/-! ### Scanner traversal lemmas -/

theorem gtaGo_skip_all (doc inner : Bool) (anchor : String) (sk : List String)
    (hsk : ∀ l ∈ sk, isSkipL (strip l) = true) (ls : List String) :
    gtaGo doc inner anchor (sk ++ ls) = gtaGo doc inner anchor ls := by
  induction sk with
  | nil => rfl
  | cons x xs ih =>
    rw [List.cons_append, gtaGo_skip _ _ _ _ _ (hsk x (List.mem_cons_self _ _))]
    exact ih (fun l hl => hsk l (List.mem_cons_of_mem _ hl))

theorem gtaGo_page_mid (anchor : String) (mid : List String)
    (hmid : ∀ l ∈ mid, isAnchorL (strip l) = false ∧
      ∀ lv ti, parseHeadingL (strip l) = some (lv, ti) → lv < 2) (ls : List String) :
    gtaGo false false anchor (mid ++ ls) = gtaGo false false anchor ls := by
  induction mid with
  | nil => rfl
  | cons x xs ih =>
    have hx := hmid x (List.mem_cons_self _ _)
    have hxs : ∀ l ∈ xs, isAnchorL (strip l) = false ∧
        ∀ lv ti, parseHeadingL (strip l) = some (lv, ti) → lv < 2 :=
      fun l hl => hmid l (List.mem_cons_of_mem _ hl)
    rw [List.cons_append]
    by_cases hs : isSkipL (strip x) = true
    · rw [gtaGo_skip _ _ _ _ _ hs]
      exact ih hxs
    · have hs' : isSkipL (strip x) = false := by simpa using hs
      rw [gtaGo_page_plain false anchor x _ hs' hx.1 hx.2]
      exact ih hxs

theorem gta_no_heading :
    ∀ (lines : List String), (∀ l ∈ lines, parseHeadingL (strip l) = none) →
      ∀ (inner : Bool) (anchor : String),
        (gtaGo false inner anchor lines).1 = "Untitled" ∧
        ((∀ l ∈ lines, isAnchorL (strip l) = false) →
          (gtaGo false inner anchor lines).2 = anchor) := by
  intro lines
  induction lines with
  | nil =>
    intro _ inner anchor
    exact ⟨rfl, fun _ => rfl⟩
  | cons l ls ih =>
    intro h inner anchor
    have hl := h l (List.mem_cons_self _ _)
    have hls : ∀ x ∈ ls, parseHeadingL (strip x) = none :=
      fun x hx => h x (List.mem_cons_of_mem _ hx)
    by_cases hs : isSkipL (strip l) = true
    · rw [gtaGo_skip _ _ _ _ _ hs]
      refine ⟨(ih hls inner anchor).1, fun haa => ?_⟩
      exact (ih hls inner anchor).2 (fun x hx => haa x (List.mem_cons_of_mem _ hx))
    · have hs' : isSkipL (strip l) = false := by simpa using hs
      by_cases ha : isAnchorL (strip l) = true
      · rw [gtaGo_anchor _ _ _ _ _ hs' ha]
        refine ⟨(ih hls true _).1, fun haa => ?_⟩
        exact absurd (haa l (List.mem_cons_self _ _)) (by simp [ha])
      · have ha' : isAnchorL (strip l) = false := by simpa using ha
        rw [gtaGo_page_plain inner anchor l ls hs' ha'
          (fun lv t hp => absurd hp (by simp [hl]))]
        refine ⟨(ih hls false anchor).1, fun haa => ?_⟩
        exact (ih hls false anchor).2 (fun x hx => haa x (List.mem_cons_of_mem _ hx))

/-- C3 counterexample: the file `["[[foo]]", "some body text"]` contains
no heading lines at all, yet page-title resolution returns the pending
anchor `"foo"`, not the empty anchor the claim asserts. -/
theorem claim3_counterexample :
    (∀ l ∈ (["[[foo]]", "some body text"] : List String),
      parseHeadingL (strip l) = none) ∧
    get_title_and_anchor ["[[foo]]", "some body text"] false = ("Untitled", "foo") ∧
    (("Untitled", "foo") : String × String) ≠ ("Untitled", "") := by
  refine ⟨by decide, by decide, by decide⟩

/-- C4 counterexample: in document-title mode, the file `["= My Book"]`
has its first depth-1 heading not preceded by an anchor marker, and the
returned anchor is the slug `"my-book"` derived from the title — not the
empty string the claim asserts. -/
theorem claim4_counterexample :
    get_title_and_anchor ["= My Book"] true = ("My Book", "my-book") ∧
    make_anchor_from_title "My Book" = "my-book" ∧
    ("my-book" : String) ≠ "" := by
  refine ⟨by decide, by decide, by decide⟩

theorem append_cons_ne_nil {α : Type} (sk : List α) (x : α) (ls : List α) :
    (sk ++ x :: ls).isEmpty = false := by
  cases sk <;> rfl

/-- C4 amended: in document-title mode, when an anchor marker precedes
the first depth-1 heading, the marker's identifier is returned verbatim;
when no marker precedes it, the anchor is derived from the title text by
the slug function (not left empty, contrary to the original claim). -/
theorem claim4_amended :
    (∀ (sk sk2 : List String) (a t : String) (rest : List String),
      (∀ l ∈ sk, isSkipL (strip l) = true) →
      (∀ l ∈ sk2, isSkipL (strip l) = true) →
      strip a = a →
      strip t = t → t ≠ "" → (∀ c, t.data.head? = some c → c ≠ '=') →
      get_title_and_anchor
        (sk ++ ("[[" ++ a ++ "]]") :: (sk2 ++ ("= " ++ t) :: rest)) true = (t, a)) ∧
    (∀ (sk : List String) (t : String) (rest : List String),
      (∀ l ∈ sk, isSkipL (strip l) = true) →
      strip t = t → t ≠ "" → (∀ c, t.data.head? = some c → c ≠ '=') →
      get_title_and_anchor (sk ++ ("= " ++ t) :: rest) true =
        (t, make_anchor_from_title t)) := by
  constructor
  · intro sk sk2 a t rest hsk hsk2 ha ht1 ht2 ht3
    unfold get_title_and_anchor
    rw [if_neg (by simp [append_cons_ne_nil])]
    rw [gtaGo_skip_all true false "" sk hsk _]
    rw [gtaGo_anchor _ _ _ _ _ (anchor_line_skip a) (anchor_line_is_anchor a)]
    rw [anchor_line_anchorOf a ha]
    rw [gtaGo_skip_all true true a sk2 hsk2 _]
    rw [gtaGo_doc_title true a _ rest (heading1_skip t ht1 ht2)
      (heading1_anchor t ht1 ht2) (heading1_is_doc_title t ht1 ht2)]
    rw [heading1_doc_title_of t ht1 ht2 ht3]
    rfl
  · intro sk t rest hsk ht1 ht2 ht3
    unfold get_title_and_anchor
    rw [if_neg (by simp [append_cons_ne_nil])]
    rw [gtaGo_skip_all true false "" sk hsk _]
    rw [gtaGo_doc_title false "" _ rest (heading1_skip t ht1 ht2)
      (heading1_anchor t ht1 ht2) (heading1_is_doc_title t ht1 ht2)]
    rw [heading1_doc_title_of t ht1 ht2 ht3]
    rfl

/-- C4 witness: both branches of the amended claim at concrete inputs. -/
theorem claim4_witness :
    get_title_and_anchor ["// note", "[[my-id]]", ":attr: v", "= The Guide"] true =
        ("The Guide", "my-id") ∧
    get_title_and_anchor ["// note", "= The Guide"] true =
        ("The Guide", make_anchor_from_title "The Guide") := by
  constructor
  · exact claim4_amended.1 ["// note"] [":attr: v"] "my-id" "The Guide" []
      (by decide) (by decide) (by decide) (by decide) (by decide) (by decide)
  · exact claim4_amended.2 ["// note"] "The Guide" []
      (by decide) (by decide) (by decide) (by decide)

/-- C9: in page-title mode, a pending `[[id]]` anchor survives an
ordinary non-skippable, non-heading body line and is attached verbatim to
the first later heading of level ≥ 2, taking precedence over the slug
derived from that heading's title. -/
theorem claim9_pending_anchor_attaches (sk : List String) (a b : String)
    (mid : List String) (t : String) (rest : List String)
    (hsk : ∀ l ∈ sk, isSkipL (strip l) = true)
    (ha1 : strip a = a) (ha2 : a ≠ "")
    (hb1 : isSkipL (strip b) = false) (hb2 : isAnchorL (strip b) = false)
    (hb3 : parseHeadingL (strip b) = none)
    (hmid : ∀ l ∈ mid, isAnchorL (strip l) = false ∧
      ∀ lv ti, parseHeadingL (strip l) = some (lv, ti) → lv < 2)
    (ht1 : strip t = t) (ht2 : t ≠ "") :
    get_title_and_anchor
      (sk ++ ("[[" ++ a ++ "]]") :: b :: (mid ++ ("== " ++ t) :: rest)) false =
      (t, a) := by
  unfold get_title_and_anchor
  rw [if_neg (by simp [append_cons_ne_nil])]
  rw [gtaGo_skip_all false false "" sk hsk _]
  rw [gtaGo_anchor _ _ _ _ _ (anchor_line_skip a) (anchor_line_is_anchor a)]
  rw [anchor_line_anchorOf a ha1]
  rw [gtaGo_page_plain true a b _ hb1 hb2
    (fun lv ti hp => absurd hp (by simp [hb3]))]
  rw [gtaGo_page_mid a mid hmid _]
  rw [gtaGo_page_heading false a _ rest 2 t (heading2_skip t ht1 ht2)
    (heading2_anchor t ht1 ht2) (heading2_parse t ht1 ht2) (by omega)]
  rw [if_neg (by simp [beq_eq_false_iff_ne.mpr ha2])]

/-- C9 witness: the pending anchor survives a body line and two plain
middle lines and lands on the later `==` heading. -/
theorem claim9_witness :
    get_title_and_anchor
      ["// intro", "[[target-id]]", "plain body", "more text", "= top",
        "== Section Title"] false = ("Section Title", "target-id") := by
  apply claim9_pending_anchor_attaches ["// intro"] "target-id" "plain body"
    ["more text", "= top"] "Section Title" []
    (by decide) (by decide) (by decide) (by decide) (by decide) (by decide)
  · intro l hl
    simp only [List.mem_cons, List.not_mem_nil, or_false] at hl
    rcases hl with rfl | rfl
    · refine ⟨by decide, ?_⟩
      intro lv ti hp
      rw [show parseHeadingL (strip "more text") = none from by decide] at hp
      cases hp
    · refine ⟨by decide, ?_⟩
      intro lv ti hp
      rw [show parseHeadingL (strip "= top") = some (1, "top") from by decide] at hp
      simp only [Option.some.injEq, Prod.mk.injEq] at hp
      omega
  · decide
  · decide

/-! ### Filesystem, paths, and configuration -/

/-- A filesystem path as its list of components (rooted at the working
directory); `Path.resolve` is component normalisation (the repository has
no symlinks). -/
abbrev PathC := List String

/-- The filesystem: a finite association list from absolute path
components to the file's lines (every read in generate_nav.py goes
through `read_text_lines`, i.e. `splitlines`). -/
abbrev FS := List (PathC × List String)

def fsFind (fs : FS) (p : PathC) : Option (List String) :=
  (fs.find? (fun e => e.1 == p)).map (·.2)

def fsExists (fs : FS) (p : PathC) : Bool := (fsFind fs p).isSome

/-- `read_text_lines`: a missing or unreadable file reads as no lines. -/
def readLines (fs : FS) (p : PathC) : List String := (fsFind fs p).getD []

/-- `Path.write_text`: overwrite if present, else create. -/
def fsWrite (fs : FS) (p : PathC) (v : List String) : FS :=
  if (fs.find? (fun e => e.1 == p)).isSome then
    fs.map (fun e => if e.1 == p then (p, v) else e)
  else fs ++ [(p, v)]

def PAGES_DIR : PathC := ["src", "modules", "ROOT", "pages"]

def PARTIALS_DIR : PathC := ["src", "modules", "ROOT", "partials"]

def MAX_NAV_DEPTH : Nat := 4

def ALLOWED_SECTION_LEVELS : List Nat := [3]

def IGNORE_TITLES : List String :=
  ["description", "options", "example", "examples", "notes", "see also"]

/-- `ALIAS_MAP` of generate_nav.py: rule tables keyed both by the
master's basename and by its full relative path. -/
def ALIAS_MAP : List (String × List (String × String)) :=
  [("referenceguide.adoc",
     [("perfdmf/book.adoc", "referenceguide/taudb-alias.adoc"),
      ("newguide/introduction.adoc", "referenceguide/installation-alias.adoc")]),
   ("referenceguide/referenceguide.adoc",
     [("perfdmf/book.adoc", "referenceguide/taudb-alias.adoc"),
      ("newguide/introduction.adoc", "referenceguide/installation-alias.adoc")])]

def splitSlashAux (cur : List Char) : List Char → List String
  | [] => [String.mk cur.reverse]
  | c :: cs =>
    if c == '/' then String.mk cur.reverse :: splitSlashAux [] cs
    else splitSlashAux (c :: cur) cs

/-- Split a path string on `/` (how `Path` consumes a path string). -/
def splitSlash (s : String) : List String := splitSlashAux [] s.data

/-- Component normalisation of `Path.resolve`: empty and `.` components
vanish, `..` pops one component. -/
def normP (comps : List String) : PathC :=
  comps.foldl (fun acc c =>
    if c == "" || c == "." then acc
    else if c == ".." then acc.dropLast
    else acc ++ [c]) []

/-- `(dir / rel).resolve()`; an absolute `rel` replaces `dir` as in
`pathlib`. -/
def joinResolve (dir : PathC) (rel : String) : PathC :=
  if startsW rel "/" then normP (splitSlash rel) else normP (dir ++ splitSlash rel)

/-- `str(path)` on component lists. -/
def pathStr (p : PathC) : String := String.intercalate "/" p

/-- `Path(k).name`: the last non-empty component. -/
def pathName (k : String) : String := ((splitSlash k).filter (· != "")).getLastD ""

/-- `path.relative_to(base)`: the remaining components, or `none` (the
`ValueError` branch) when `path` is not below `base`. -/
def relativeTo (base p : PathC) : Option PathC :=
  if base.isPrefixOf p then some (p.drop base.length) else none

def commonPrefixLen : PathC → PathC → Nat
  | a :: as, b :: bs => if a == b then commonPrefixLen as bs + 1 else 0
  | _, _ => 0

/-- `os.path.relpath(target, start)` on component lists. -/
def relpathComps (target start : PathC) : List String :=
  List.replicate (start.length - commonPrefixLen target start) ".." ++
    target.drop (commonPrefixLen target start)

def relpathStr (target start : PathC) : String :=
  if relpathComps target start = [] then "." else pathStr (relpathComps target start)

/-! ### Include extraction and page classification -/

/-- The leftmost match of `include::([^[\]]+)\[\]` (`re.search`): try each
start position left to right; at a position the match requires the
literal `include::`, then the greedy non-empty run of non-bracket
characters, then the literal `[]` (backtracking the greedy run cannot
succeed because a shorter run ends at a non-bracket character). -/
def findInclude : List Char → Option String
  | [] => none
  | c :: cs =>
    if ("include::".data.isPrefixOf (c :: cs)) then
      (let after := (c :: cs).drop 9
       let grp := after.takeWhile (fun ch => !(ch == '[') && !(ch == ']'))
       if grp.isEmpty then findInclude cs
       else if (after.drop grp.length).take 2 = ['[', ']'] then some (String.mk grp)
       else findInclude cs)
    else findInclude cs

/-- `extract_include_files`: resolved include targets, skipping paths
under the partials directory and paths that do not exist. -/
def extract_include_files (fs : FS) (file_path : PathC) : List PathC :=
  (readLines fs file_path).filterMap (fun line =>
    match findInclude line.data with
    | none => none
    | some rel =>
      (let inc := joinResolve file_path.dropLast (strip rel)
       if PARTIALS_DIR.isPrefixOf inc && !(PARTIALS_DIR == inc) then none
       else if fsExists fs inc then some inc
       else none))

def extract_section_headings_go (lastAnchor : Option String) :
    List String → List (Nat × String × String)
  | [] => []
  | l :: ls =>
    if isAnchorL (strip l) then
      extract_section_headings_go (some (anchorOf (strip l))) ls
    else if isSkipL (strip l) then extract_section_headings_go lastAnchor ls
    else
      match parseHeadingL (strip l) with
      | some (lv, t) =>
        if !(t == "") && !(IGNORE_TITLES.contains (lowerS t)) &&
            ALLOWED_SECTION_LEVELS.contains lv then
          (lv,
            (match lastAnchor with
             | some a => if a == "" then make_anchor_from_title t else a
             | none => make_anchor_from_title t), t) ::
            extract_section_headings_go none ls
        else extract_section_headings_go none ls
      | none => extract_section_headings_go none ls

/-- `extract_section_headings`: `(level, anchor, title)` triples of the
allowed in-page heading levels, with `[[id]]` markers attached to the
directly following heading (`last_anchor or make_anchor_from_title`). -/
def extract_section_headings (fs : FS) (file_path : PathC) :
    List (Nat × String × String) :=
  extract_section_headings_go none (readLines fs file_path)

/-- A stripped line matching `^===\s+`. -/
def isSec3Line (s : String) : Bool :=
  match s.data with
  | '=' :: '=' :: '=' :: c :: _ => wsC c
  | _ => false

/-- `is_aggregator_page`: at least one include and no `===` line. -/
def is_aggregator_page (fs : FS) (file_path : PathC) : Bool :=
  !(extract_include_files fs file_path).isEmpty &&
    (readLines fs file_path).all (fun l => !(isSec3Line (strip l)))

/-! ### Alias resolution and stub creation -/

def lookupTable (k : String) : Option (List (String × String)) :=
  (ALIAS_MAP.find? (fun e => e.1 == k)).map (·.2)

/-- `key in ALIAS_MAP and xref_path_str in ALIAS_MAP[key]` then
`ALIAS_MAP[key][xref_path_str]`. -/
def tryAliasKey (k x : String) : Option String :=
  match lookupTable k with
  | some tbl => (tbl.find? (fun e => e.1 == x)).map (·.2)
  | none => none

/-- `resolve_alias`: iterate `for key in (master_key, basename_key)` and
return on the first key whose table has a rule for the content path. -/
def resolve_alias (master_key xref_path_str : String) : String × Option String :=
  match ([master_key, pathName master_key].findSome?
      (fun k => tryAliasKey k xref_path_str)) with
  | some v => (v, some v)
  | none => (xref_path_str, none)

def alias_abs_path (alias_page_path_str : String) : PathC :=
  PAGES_DIR ++ splitSlash alias_page_path_str

/-- The two lines `create_alias_file` writes. -/
def aliasContent (alias_page_path_str target_page_path_str : String) : List String :=
  [":page-alias: " ++ target_page_path_str,
   "include::" ++ relpathStr (PAGES_DIR ++ splitSlash target_page_path_str)
     ((alias_abs_path alias_page_path_str).dropLast) ++ "[]"]

/-- `create_alias_file`: unconditionally (over)write the two-line stub
(`mkdir(parents=True, exist_ok=True)` needs no analogue in the
association-list filesystem). -/
def create_alias_file (fs : FS) (alias_page_path_str target_page_path_str : String) :
    FS :=
  fsWrite fs (alias_abs_path alias_page_path_str)
    (aliasContent alias_page_path_str target_page_path_str)

/-! ### Navigation entries and page processing -/

/-- One output list line of `add_entry`: the clamped marker count, the
xref target, the title, and the (possibly empty) anchor. -/
structure NavEntry where
  level : Nat
  target : String
  title : String
  anchor : String
deriving DecidableEq

/-- `add_entry`: the marker count is `"*" * max(1, min(level, MAX_NAV_DEPTH))`. -/
def add_entry (nav_lines : List NavEntry) (level : Nat)
    (xref_target title anchor : String) : List NavEntry :=
  nav_lines ++ [⟨max 1 (min level MAX_NAV_DEPTH), xref_target, title, anchor⟩]

/-- The formatted text of one entry (the f-string of `add_entry`). -/
def renderEntry (e : NavEntry) : String :=
  String.mk (List.replicate e.level '*') ++ " xref:" ++ e.target ++
    (if e.anchor == "" then "" else "#" ++ e.anchor) ++ "[" ++ e.title ++ "]"

/-- `process_aggregator_children_as_alias_sections`. -/
def process_aggregator_children_as_alias_sections (fs : FS)
    (aggregator_file : PathC) (alias_xref_target : String)
    (current_level : Nat) (nav_lines : List NavEntry) : List NavEntry :=
  (extract_include_files fs aggregator_file).foldl (fun nav inc =>
    (let ta := get_title_and_anchor (readLines fs inc) false
     if ta.1 == "" || lowerS ta.1 == "untitled" then nav
     else add_entry nav (min (current_level + 1) MAX_NAV_DEPTH)
       alias_xref_target ta.1 ta.2)) nav_lines

/-- The in-page sections loop of `process_page` (the `for level,
sub_anchor, sub_title in sections` loop). -/
def sectionFold (current_level : Nat) (final_xref title anchor : String)
    (sections : List (Nat × String × String)) (nav_lines : List NavEntry) :
    List NavEntry :=
  sections.foldl (fun nav e =>
    if e.2.1 == anchor || lowerS (strip e.2.2) == lowerS (strip title) then nav
    else if current_level + (e.1 - 2) ≤ MAX_NAV_DEPTH then
      add_entry nav (current_level + (e.1 - 2)) final_xref e.2.2 e.2.1
    else nav) nav_lines

/-- The mutable run state: the accumulated entries, the filesystem (alias
stubs are written during the run), the visited set, and a ghost `trace`
recording, in order, the keys inserted into `visited` at the recursion
guards (used to state the once-per-pair claim C6). -/
structure St where
  nav : List NavEntry
  fs : FS
  visited : List (String × String)
  trace : List (String × String)
deriving DecidableEq

/-- The guarded include loop shared by `process_page` (recursion into an
aggregator's children) and `main` (a master's direct includes, where the
loop is started with `current_level = 1` so the children run at level 2):
check the visited set, insert the key, recurse through `rec` at
`min(current_level + 1, MAX_NAV_DEPTH)`.  `rec` is the recursive
reference to `process_page` at the remaining fuel. -/
def foldIncludesGo (rec : PathC → String → Nat → St → Option St) :
    List PathC → String → Nat → St → Option St
  | [], _, _, st => some st
  | inc :: rest, master_key, current_level, st =>
    let key := (pathStr inc, master_key)
    if key ∈ st.visited then
      foldIncludesGo rec rest master_key current_level st
    else
      match rec inc master_key (min (current_level + 1) MAX_NAV_DEPTH)
          { st with visited := key :: st.visited, trace := st.trace ++ [key] } with
      | none => none
      | some st2 => foldIncludesGo rec rest master_key current_level st2

/-- `process_page`, with fuel for the recursion (the Python recursion is
guarded only by the visited set; fuel sufficiency is claim C6). -/
def processPage : Nat → PathC → String → Nat → St → Option St
  | 0, _, _, _, _ => none
  | fuel + 1, file_path, master_key, current_level, st =>
    match relativeTo PAGES_DIR file_path with
    | none => some st
    | some xref =>
      let xrefStr := pathStr xref
      let ra := resolve_alias master_key xrefStr
      let st1 : St :=
        match ra.2 with
        | some al => { st with fs := create_alias_file st.fs al xrefStr }
        | none => st
      let ta := get_title_and_anchor (readLines st1.fs file_path) false
      if ta.1 == "" || lowerS ta.1 == "untitled" then some st1
      else
        let st2 := { st1 with
          nav := add_entry st1.nav current_level ra.1 ta.1 ta.2 }
        if is_aggregator_page st2.fs file_path && ra.2.isSome then
          some { st2 with nav := (process_aggregator_children_as_alias_sections
            st2.fs file_path ra.1 current_level st2.nav) }
        else
          let st3 := { st2 with nav := (sectionFold current_level ra.1 ta.1 ta.2
            (extract_section_headings st2.fs file_path) st2.nav) }
          if is_aggregator_page st3.fs file_path then
            foldIncludesGo (processPage fuel)
              (extract_include_files st3.fs file_path)
              master_key current_level st3
          else some st3

/-- The include loop at a given fuel. -/
def foldIncludes (fuel : Nat) (incs : List PathC) (master_key : String)
    (current_level : Nat) (st : St) : Option St :=
  foldIncludesGo (processPage fuel) incs master_key current_level st

example : resolve_alias "referenceguide.adoc" "perfdmf/book.adoc" =
    ("referenceguide/taudb-alias.adoc", some "referenceguide/taudb-alias.adoc") := by
  decide
example : resolve_alias "referenceguide/referenceguide.adoc" "newguide/introduction.adoc" =
    ("referenceguide/installation-alias.adoc",
      some "referenceguide/installation-alias.adoc") := by decide
example : resolve_alias "usersguide/usersguide.adoc" "perfdmf/book.adoc" =
    ("perfdmf/book.adoc", none) := by decide

/-- The alias lookup as the specification words it: consult the rule
table first under the master's full relative path key, then under its
bare filename key; the first key whose rule set contains the content path
wins; otherwise return the original path and report no alias. -/
def resolveAliasSpec (master_key xref_path_str : String) : String × Option String :=
  match tryAliasKey master_key xref_path_str with
  | some v => (v, some v)
  | none =>
    match tryAliasKey (pathName master_key) xref_path_str with
    | some v => (v, some v)
    | none => (xref_path_str, none)

/-- C7: `resolve_alias` implements exactly the two-key first-match lookup
described by the specification, falling back to the unchanged path with
no alias reported. -/
theorem claim7_resolve_alias_order (master_key xref_path_str : String) :
    resolve_alias master_key xref_path_str =
      resolveAliasSpec master_key xref_path_str := by
  unfold resolve_alias resolveAliasSpec
  cases h1 : tryAliasKey master_key xref_path_str with
  | some v => rw [List.findSome?_cons, h1]
  | none =>
    cases h2 : tryAliasKey (pathName master_key) xref_path_str with
    | some v => rw [List.findSome?_cons, h1, List.findSome?_cons, h2]
    | none =>
      rw [List.findSome?_cons, h1, List.findSome?_cons, h2]
      rfl

/-- The value table of the concrete alias configuration: a matched rule
is one of the two configured pairs, and the final path is the alias. -/
theorem tryAliasKey_spec (k x v : String) (h : tryAliasKey k x = some v) :
    (x = "perfdmf/book.adoc" ∧ v = "referenceguide/taudb-alias.adoc") ∨
      (x = "newguide/introduction.adoc" ∧
        v = "referenceguide/installation-alias.adoc") := by
  unfold tryAliasKey at h
  rcases hl : lookupTable k with _ | tbl
  · rw [hl] at h
    exact Option.noConfusion h
  · rw [hl] at h
    replace h : (tbl.find? (fun e => e.1 == x)).map (fun e => e.2) = some v := h
    rcases hf : tbl.find? (fun e => e.1 == x) with _ | e
    · rw [hf] at h
      exact Option.noConfusion h
    · rw [hf] at h
      simp only [Option.map_some', Option.some.injEq] at h
      have hmem := List.mem_of_find?_eq_some hf
      have hpred : (e.1 == x) = true := by simpa using List.find?_some hf
      have htbl : tbl =
          [("perfdmf/book.adoc", "referenceguide/taudb-alias.adoc"),
           ("newguide/introduction.adoc",
             "referenceguide/installation-alias.adoc")] := by
        unfold lookupTable at hl
        rcases hg : ALIAS_MAP.find? (fun e => e.1 == k) with _ | ent
        · rw [hg] at hl
          exact Option.noConfusion hl
        · rw [hg] at hl
          simp only [Option.map_some', Option.some.injEq] at hl
          have hment := List.mem_of_find?_eq_some hg
          have hcases : ent = ("referenceguide.adoc",
              [("perfdmf/book.adoc", "referenceguide/taudb-alias.adoc"),
               ("newguide/introduction.adoc",
                 "referenceguide/installation-alias.adoc")]) ∨
              ent = ("referenceguide/referenceguide.adoc",
              [("perfdmf/book.adoc", "referenceguide/taudb-alias.adoc"),
               ("newguide/introduction.adoc",
                 "referenceguide/installation-alias.adoc")]) := by
            simpa [ALIAS_MAP] using hment
          rcases hcases with rfl | rfl
          · exact hl.symm
          · exact hl.symm
      subst htbl
      have hecases : e = ("perfdmf/book.adoc", "referenceguide/taudb-alias.adoc") ∨
          e = ("newguide/introduction.adoc",
            "referenceguide/installation-alias.adoc") := by
        simpa using hmem
      rcases hecases with rfl | rfl
      · exact Or.inl ⟨(beq_iff_eq.mp hpred).symm, h.symm⟩
      · exact Or.inr ⟨(beq_iff_eq.mp hpred).symm, h.symm⟩

theorem resolve_alias_matched (mk x v : String)
    (h : resolve_alias mk x = (v, some v)) :
    ((x = "perfdmf/book.adoc" ∧ v = "referenceguide/taudb-alias.adoc") ∨
      (x = "newguide/introduction.adoc" ∧
        v = "referenceguide/installation-alias.adoc")) := by
  rw [claim7_resolve_alias_order] at h
  unfold resolveAliasSpec at h
  cases h1 : tryAliasKey mk x with
  | some w =>
    rw [h1] at h
    simp only [Prod.mk.injEq, Option.some.injEq] at h
    exact h.1 ▸ tryAliasKey_spec mk x w h1
  | none =>
    rw [h1] at h
    cases h2 : tryAliasKey (pathName mk) x with
    | some w =>
      rw [h2] at h
      simp only [Prod.mk.injEq, Option.some.injEq] at h
      exact h.1 ▸ tryAliasKey_spec (pathName mk) x w h2
    | none =>
      rw [h2] at h
      simp at h

theorem resolve_alias_ne (mk x v : String) (h : resolve_alias mk x = (v, some v)) :
    v ≠ x := by
  rcases resolve_alias_matched mk x v h with ⟨hx, hv⟩ | ⟨hx, hv⟩ <;>
    (subst hx; subst hv; decide)

/-! ### The alias stub file (claim C2) -/

theorem fsWrite_pred_comp (p : PathC) (v : List String) (e : PathC × List String) :
    ((fun x : PathC × List String => x.1 == p) ∘
      (fun x : PathC × List String => if x.1 == p then (p, v) else x)) e =
      (e.1 == p) := by
  by_cases he : (e.1 == p) = true
  · simp [Function.comp, he]
  · have he2 : (e.1 == p) = false := by simpa using he
    simp [Function.comp, he2]

theorem fsFind_map_write (fs : FS) (p : PathC) (v : List String) :
    fsFind (fs.map (fun e => if e.1 == p then (p, v) else e)) p =
      (fs.find? (fun e => e.1 == p)).map (fun _ => v) := by
  unfold fsFind
  rw [List.find?_map]
  rw [funext (fsWrite_pred_comp p v)]
  rcases hf : fs.find? (fun e => e.1 == p) with _ | e
  · rw [hf]
    rfl
  · rw [hf]
    have hpe : (e.1 == p) = true := by simpa using List.find?_some hf
    have hep : e.1 = p := beq_iff_eq.mp hpe
    simp [hep]

theorem readLines_fsWrite (fs : FS) (p : PathC) (v : List String) :
    readLines (fsWrite fs p v) p = v := by
  unfold readLines fsWrite
  rcases hf : fs.find? (fun e => e.1 == p) with _ | e
  · rw [if_neg (by simp [hf])]
    unfold fsFind
    rw [List.find?_append, hf]
    simp [List.find?]
  · rw [if_pos (by simp [hf])]
    rw [fsFind_map_write, hf]
    rfl

theorem fsWrite_eq_append (fs : FS) (p : PathC) (v : List String)
    (hf : fs.find? (fun e => e.1 == p) = none) :
    fsWrite fs p v = fs ++ [(p, v)] := by
  unfold fsWrite
  rw [hf]
  rfl

theorem fsWrite_eq_map (fs : FS) (p : PathC) (v : List String) (e : PathC × List String)
    (hf : fs.find? (fun e => e.1 == p) = some e) :
    fsWrite fs p v = fs.map (fun e => if e.1 == p then (p, v) else e) := by
  unfold fsWrite
  rw [hf]
  rfl

theorem fsWrite_idem (fs : FS) (p : PathC) (v : List String) :
    fsWrite (fsWrite fs p v) p v = fsWrite fs p v := by
  rcases hf : fs.find? (fun e => e.1 == p) with _ | e
  · rw [fsWrite_eq_append fs p v hf]
    have hfind : ((fs ++ [(p, v)]).find? (fun e => e.1 == p)) = some (p, v) := by
      rw [List.find?_append, hf]
      simp [List.find?]
    rw [fsWrite_eq_map _ p v _ hfind, List.map_append]
    have hall : ∀ e ∈ fs, (fun e : PathC × List String =>
        if e.1 == p then (p, v) else e) e = id e := by
      intro e he
      have h2 := List.find?_eq_none.mp hf e he
      have h3 : (e.1 == p) = false := by simpa using h2
      simp [h3]
    rw [List.map_congr_left hall, List.map_id]
    simp
  · rw [fsWrite_eq_map fs p v e hf]
    have hfind : ((fs.map (fun e => if e.1 == p then (p, v) else e)).find?
        (fun e => e.1 == p)) = (fs.find? (fun e => e.1 == p)).map
          (fun e => if e.1 == p then (p, v) else e) := by
      rw [List.find?_map, funext (fsWrite_pred_comp p v)]
    have hpe : (e.1 == p) = true := by simpa using List.find?_some hf
    have hfind2 : ((fs.map (fun e => if e.1 == p then (p, v) else e)).find?
        (fun e => e.1 == p)) = some (p, v) := by
      rw [hfind, hf]
      simp [beq_iff_eq.mp hpe]
    rw [fsWrite_eq_map _ p v _ hfind2, List.map_map]
    apply List.map_congr_left
    intro w _
    by_cases hw : (w.1 == p) = true
    · simp [Function.comp, hw]
    · have hw2 : (w.1 == p) = false := by simpa using hw
      simp [Function.comp, hw2]

/-- C2: the alias stub is exactly two lines — the page-alias metadata
line naming the original content's relative path, then one include
directive whose path is the original file's path relative to the alias
file's directory — and the write is an unconditional overwrite, so
writing twice yields an identical filesystem (byte-identical stub). -/
theorem claim2_alias_stub (fs : FS) (a t : String) :
    readLines (create_alias_file fs a t) (alias_abs_path a) =
      [":page-alias: " ++ t,
       "include::" ++ relpathStr (PAGES_DIR ++ splitSlash t)
         ((alias_abs_path a).dropLast) ++ "[]"] ∧
    (readLines (create_alias_file fs a t) (alias_abs_path a)).length = 2 ∧
    create_alias_file (create_alias_file fs a t) a t = create_alias_file fs a t := by
  refine ⟨?_, ?_, fsWrite_idem _ _ _⟩
  · exact readLines_fsWrite _ _ _
  · have h2 : readLines (create_alias_file fs a t) (alias_abs_path a) =
        aliasContent a t := readLines_fsWrite _ _ _
    rw [h2]
    rfl

example : aliasContent "referenceguide/taudb-alias.adoc" "perfdmf/book.adoc" =
    [":page-alias: perfdmf/book.adoc", "include::../perfdmf/book.adoc[]"] := by
  decide

/-! ### Claim C1: aggregator pages under an alias -/

/-- A small filesystem with an aggregator (`perfdmf/book.adoc`, matched
by alias rules) whose two included children are one titled and one
heading-free (Untitled) page. -/
def aggFs : FS :=
  [(PAGES_DIR ++ ["perfdmf", "book.adoc"],
     ["== PerfDMF", "include::ch1.adoc[]", "include::ch2.adoc[]"]),
   (PAGES_DIR ++ ["perfdmf", "ch1.adoc"], ["== Chapter One"]),
   (PAGES_DIR ++ ["perfdmf", "ch2.adoc"], ["plain text only"])]

/-- C1 counterexample: under the alias master, the aggregator
`perfdmf/book.adoc` has two included children but only one child
NavEntry is emitted — the child whose page-mode title is the `Untitled`
sentinel is skipped, so the orchestrator does not emit one NavEntry per
included child. -/
theorem claim1_counterexample :
    (extract_include_files aggFs (PAGES_DIR ++ ["perfdmf", "book.adoc"])).length = 2 ∧
    is_aggregator_page aggFs (PAGES_DIR ++ ["perfdmf", "book.adoc"]) = true ∧
    (processPage 3 (PAGES_DIR ++ ["perfdmf", "book.adoc"])
        "referenceguide/referenceguide.adoc" 2
        ⟨[], aggFs, [], []⟩).map St.nav =
      some [⟨2, "referenceguide/taudb-alias.adoc", "PerfDMF", "perfdmf"⟩,
        ⟨3, "referenceguide/taudb-alias.adoc", "Chapter One", "chapter-one"⟩] := by
  refine ⟨by decide, by decide, by decide⟩

/-! ### Characterizations of the entry-emitting folds -/

theorem foldl_skip_add {α : Type} (step : List NavEntry → α → List NavEntry)
    (g : α → Option NavEntry)
    (hstep : ∀ nav inc, step nav inc =
      match g inc with
      | none => nav
      | some e => nav ++ [e]) :
    ∀ (xs : List α) (nav : List NavEntry),
      xs.foldl step nav = nav ++ xs.filterMap g := by
  intro xs
  induction xs with
  | nil =>
    intro nav
    simp
  | cons i is ih =>
    intro nav
    rw [List.foldl_cons, List.filterMap_cons, hstep]
    cases hg : g i with
    | none =>
      exact ih nav
    | some e =>
      rw [ih (nav ++ [e])]
      simp

theorem clamp_child_level (cur : Nat) :
    max 1 (min (min (cur + 1) MAX_NAV_DEPTH) MAX_NAV_DEPTH) =
      min (cur + 1) MAX_NAV_DEPTH := by
  unfold MAX_NAV_DEPTH
  omega

/-- The child entries synthesized for an aggregator under an alias: one
per included child whose page-mode title is neither empty nor the
`Untitled` sentinel, titled and anchored from the child but targeting the
alias page, at depth `min(current_level + 1, MAX_NAV_DEPTH)`. -/
def aliasChildEntries (fs : FS) (aggregator_file : PathC)
    (alias_xref_target : String) (current_level : Nat) : List NavEntry :=
  (extract_include_files fs aggregator_file).filterMap (fun inc =>
    if (get_title_and_anchor (readLines fs inc) false).1 == "" ||
        lowerS (get_title_and_anchor (readLines fs inc) false).1 == "untitled" then
      none
    else some ⟨min (current_level + 1) MAX_NAV_DEPTH, alias_xref_target,
      (get_title_and_anchor (readLines fs inc) false).1,
      (get_title_and_anchor (readLines fs inc) false).2⟩)

theorem aggChildren_spec (fs : FS) (f : PathC) (al : String) (cur : Nat)
    (nav : List NavEntry) :
    process_aggregator_children_as_alias_sections fs f al cur nav =
      nav ++ aliasChildEntries fs f al cur := by
  unfold process_aggregator_children_as_alias_sections aliasChildEntries
  apply foldl_skip_add
  intro nav' inc
  by_cases hc : ((get_title_and_anchor (readLines fs inc) false).1 == "" ||
      lowerS (get_title_and_anchor (readLines fs inc) false).1 == "untitled") = true
  · simp only [hc, if_true]
  · have hc2 : ((get_title_and_anchor (readLines fs inc) false).1 == "" ||
        lowerS (get_title_and_anchor (readLines fs inc) false).1 == "untitled") =
        false := by simpa using hc
    simp only [hc2, Bool.false_eq_true, if_false]
    unfold add_entry
    rw [clamp_child_level]

/-- The in-page section entries as emitted by the sections loop:
self-duplicates suppressed, and a heading whose computed depth
`current_level + (level - 2)` exceeds `MAX_NAV_DEPTH` contributes no
entry at all (dropped, not clamped). -/
def sectionEntries (current_level : Nat) (final_xref title anchor : String)
    (sections : List (Nat × String × String)) : List NavEntry :=
  sections.filterMap (fun e =>
    if e.2.1 == anchor || lowerS (strip e.2.2) == lowerS (strip title) then none
    else if current_level + (e.1 - 2) ≤ MAX_NAV_DEPTH then
      some ⟨max 1 (min (current_level + (e.1 - 2)) MAX_NAV_DEPTH), final_xref,
        e.2.2, e.2.1⟩
    else none)

theorem sectionFold_spec (cur : Nat) (fx ti an : String)
    (sections : List (Nat × String × String)) (nav : List NavEntry) :
    sectionFold cur fx ti an sections nav =
      nav ++ sectionEntries cur fx ti an sections := by
  unfold sectionFold sectionEntries
  apply foldl_skip_add
  intro nav' e
  by_cases h1 : (e.2.1 == an || lowerS (strip e.2.2) == lowerS (strip ti)) = true
  · simp only [h1, if_true]
  · have h1' : (e.2.1 == an || lowerS (strip e.2.2) == lowerS (strip ti)) = false := by
      simpa using h1
    simp only [h1', Bool.false_eq_true, if_false]
    by_cases h2 : cur + (e.1 - 2) ≤ MAX_NAV_DEPTH
    · simp only [if_pos h2]
      rfl
    · simp only [if_neg h2]

/-! ### Properties of `resolve_alias` results -/

theorem resolve_alias_snd_some (mk x v : String)
    (h : (resolve_alias mk x).2 = some v) : resolve_alias mk x = (v, some v) := by
  unfold resolve_alias at h ⊢
  rcases hf : ([mk, pathName mk].findSome? (fun k => tryAliasKey k x)) with _ | w
  · rw [hf] at h
    cases h
  · rw [hf] at h
    simp only at h
    cases h
    rfl

theorem resolve_alias_snd_none (mk x : String)
    (h : (resolve_alias mk x).2 = none) : resolve_alias mk x = (x, none) := by
  unfold resolve_alias at h ⊢
  rcases hf : ([mk, pathName mk].findSome? (fun k => tryAliasKey k x)) with _ | w
  · rfl
  · rw [hf] at h
    exact Option.noConfusion h

/-! ### Claim C1 (amended) and claim C10 -/

/-- C1 amended: for an aggregator page processed under a master whose
alias rule matched, the run emits the page entry targeting the alias and
then one NavEntry per included child *whose page-mode title is neither
empty nor the `Untitled` sentinel* (such children are skipped), each with
the child's page-mode title and anchor but the alias page as target, at
depth `min(current_level + 1, MAX_NAV_DEPTH)`; it does not recurse into
the children (`visited` and `trace` are unchanged), and no emitted entry
targets the original shared content path (the alias differs from it). -/
theorem claim1_amended (fuel : Nat) (st : St) (file_path : PathC)
    (master_key : String) (current_level : Nat) (xref : PathC) (al t a : String)
    (hrel : relativeTo PAGES_DIR file_path = some xref)
    (hal : resolve_alias master_key (pathStr xref) = (al, some al))
    (hta : get_title_and_anchor (readLines
      (create_alias_file st.fs al (pathStr xref)) file_path) false = (t, a))
    (ht : ((t == "") || (lowerS t == "untitled")) = false)
    (hagg : is_aggregator_page (create_alias_file st.fs al (pathStr xref))
      file_path = true) :
    processPage (fuel + 1) file_path master_key current_level st =
      some { st with
        fs := create_alias_file st.fs al (pathStr xref)
        nav := (add_entry st.nav current_level al t a ++
          aliasChildEntries (create_alias_file st.fs al (pathStr xref))
            file_path al current_level) } ∧
    (∀ e ∈ aliasChildEntries (create_alias_file st.fs al (pathStr xref))
        file_path al current_level,
      e.target = al ∧ e.level = min (current_level + 1) MAX_NAV_DEPTH) ∧
    al ≠ pathStr xref := by
  refine ⟨?_, ?_, resolve_alias_ne _ _ _ hal⟩
  · simp only [processPage, hrel, hal, hta, ht, hagg, Option.isSome_some,
      Bool.and_true, Bool.false_eq_true, if_false, if_true]
    rw [aggChildren_spec]
  · intro e he
    unfold aliasChildEntries at he
    rcases List.mem_filterMap.mp he with ⟨inc, _, hg⟩
    by_cases hc : ((get_title_and_anchor (readLines
        (create_alias_file st.fs al (pathStr xref)) inc) false).1 == "" ||
        lowerS (get_title_and_anchor (readLines
          (create_alias_file st.fs al (pathStr xref)) inc) false).1 ==
          "untitled") = true
    · rw [if_pos hc] at hg
      cases hg
    · rw [if_neg hc] at hg
      cases hg
      exact ⟨rfl, rfl⟩

/-- C1 witness: the counterexample filesystem satisfies the amended
claim's hypotheses; one child entry is emitted for the two children. -/
theorem claim1_witness :
    processPage 1 (PAGES_DIR ++ ["perfdmf", "book.adoc"])
        "referenceguide/referenceguide.adoc" 2 ⟨[], aggFs, [], []⟩ =
      some ⟨add_entry [] 2 "referenceguide/taudb-alias.adoc"
          "PerfDMF" "perfdmf" ++
          aliasChildEntries (create_alias_file aggFs
            "referenceguide/taudb-alias.adoc" "perfdmf/book.adoc")
            (PAGES_DIR ++ ["perfdmf", "book.adoc"])
            "referenceguide/taudb-alias.adoc" 2,
        create_alias_file aggFs "referenceguide/taudb-alias.adoc"
          "perfdmf/book.adoc", [], []⟩ ∧
    ("referenceguide/taudb-alias.adoc" : String) ≠ "perfdmf/book.adoc" := by
  have h := claim1_amended 0 ⟨[], aggFs, [], []⟩
    (PAGES_DIR ++ ["perfdmf", "book.adoc"]) "referenceguide/referenceguide.adoc"
    2 ["perfdmf", "book.adoc"] "referenceguide/taudb-alias.adoc"
    "PerfDMF" "perfdmf" (by decide) (by decide) (by decide) (by decide) (by decide)
  exact ⟨h.1, h.2.2⟩

/-- The filesystem state after the alias step of `process_page`. -/
def postAliasFs (st : St) (master_key : String) (xref : PathC) : FS :=
  match (resolve_alias master_key (pathStr xref)).2 with
  | some al => create_alias_file st.fs al (pathStr xref)
  | none => st.fs

/-- C10: alias resolution and stub creation happen before title
resolution, so a page matching an alias rule whose title resolves to the
`Untitled` sentinel (or empty) is skipped — no NavEntry, no recursion,
`visited`/`trace`/`nav` unchanged — yet the alias stub has been written
to the filesystem. -/
theorem claim10_alias_written_despite_skip (fuel : Nat) (st : St)
    (file_path : PathC) (master_key : String) (current_level : Nat)
    (xref : PathC) (al : String)
    (hrel : relativeTo PAGES_DIR file_path = some xref)
    (hal : resolve_alias master_key (pathStr xref) = (al, some al))
    (huntitled : ((get_title_and_anchor (readLines
        (create_alias_file st.fs al (pathStr xref)) file_path) false).1 == "" ||
      lowerS (get_title_and_anchor (readLines
        (create_alias_file st.fs al (pathStr xref)) file_path) false).1 ==
        "untitled") = true) :
    processPage (fuel + 1) file_path master_key current_level st =
      some { st with fs := create_alias_file st.fs al (pathStr xref) } ∧
    readLines (create_alias_file st.fs al (pathStr xref)) (alias_abs_path al) =
      aliasContent al (pathStr xref) := by
  constructor
  · simp only [processPage, hrel, hal, huntitled, if_true]
  · exact readLines_fsWrite _ _ _

/-- A heading-free shared page under the alias master: the skip still
writes the stub. -/
def untitledFs : FS :=
  [(PAGES_DIR ++ ["perfdmf", "book.adoc"], ["just prose, no heading at all"])]

/-- C10 witness. -/
theorem claim10_witness :
    processPage 1 (PAGES_DIR ++ ["perfdmf", "book.adoc"])
        "referenceguide.adoc" 2 ⟨[], untitledFs, [], []⟩ =
      some ⟨[], create_alias_file untitledFs "referenceguide/taudb-alias.adoc"
        "perfdmf/book.adoc", [], []⟩ ∧
    readLines (create_alias_file untitledFs "referenceguide/taudb-alias.adoc"
        "perfdmf/book.adoc") (alias_abs_path "referenceguide/taudb-alias.adoc") =
      aliasContent "referenceguide/taudb-alias.adoc" "perfdmf/book.adoc" := by
  exact claim10_alias_written_despite_skip 0 ⟨[], untitledFs, [], []⟩
    (PAGES_DIR ++ ["perfdmf", "book.adoc"]) "referenceguide.adoc" 2
    ["perfdmf", "book.adoc"] "referenceguide/taudb-alias.adoc"
    (by decide) (by decide) (by decide)

/-- C3 amended: a file with no heading lines resolves to the `Untitled`
sentinel; the anchor is empty when the file also has no anchor marker
lines (but is the pending marker id otherwise — see the counterexample);
and the caller skips such a page entirely: no NavEntry, no recursion,
only the alias side effect on the filesystem. -/
theorem claim3_amended :
    (∀ (lines : List String), (∀ l ∈ lines, parseHeadingL (strip l) = none) →
      (get_title_and_anchor lines false).1 = "Untitled" ∧
      ((∀ l ∈ lines, isAnchorL (strip l) = false) →
        get_title_and_anchor lines false = ("Untitled", ""))) ∧
    (∀ (fuel : Nat) (st : St) (file_path : PathC) (master_key : String)
      (current_level : Nat) (xref : PathC),
      relativeTo PAGES_DIR file_path = some xref →
      ((get_title_and_anchor (readLines (postAliasFs st master_key xref)
          file_path) false).1 == "" ||
        lowerS (get_title_and_anchor (readLines (postAliasFs st master_key xref)
          file_path) false).1 == "untitled") = true →
      processPage (fuel + 1) file_path master_key current_level st =
        some { st with fs := postAliasFs st master_key xref }) := by
  constructor
  · intro lines h
    unfold get_title_and_anchor
    rcases hl : lines with _ | ⟨x, xs⟩
    · exact ⟨rfl, fun _ => rfl⟩
    · rw [← hl]
      have hne : lines.isEmpty = false := by rw [hl]; rfl
      rw [if_neg (by simp [hne])]
      refine ⟨(gta_no_heading lines h false "").1, fun haa => ?_⟩
      have h2 := (gta_no_heading lines h false "").2 haa
      have h1 := (gta_no_heading lines h false "").1
      rcases hg : gtaGo false false "" lines with ⟨ti, an⟩
      rw [hg] at h1 h2
      simp only at h1 h2
      rw [h1, h2]
  · intro fuel st file_path master_key current_level xref hrel huntitled
    unfold postAliasFs at huntitled ⊢
    rcases hra : (resolve_alias master_key (pathStr xref)).2 with _ | al
    · have heq := resolve_alias_snd_none master_key (pathStr xref) hra
      rw [hra] at huntitled
      simp only [processPage, hrel, heq, huntitled, if_true]
    · have heq := resolve_alias_snd_some master_key (pathStr xref) al hra
      rw [hra] at huntitled
      simp only [processPage, hrel, heq, huntitled, if_true]

/-- C3 witness: both parts at concrete inputs — a heading-free,
anchor-free file resolves to `("Untitled", "")`, and processing a
heading-free page (no alias rule matches under this master) leaves the
state unchanged. -/
theorem claim3_witness :
    get_title_and_anchor ["just prose", "// comment"] false = ("Untitled", "") ∧
    processPage 1 (PAGES_DIR ++ ["perfdmf", "book.adoc"]) "usersguide.adoc" 2
        ⟨[], untitledFs, [], []⟩ =
      some ⟨[], postAliasFs ⟨[], untitledFs, [], []⟩ "usersguide.adoc"
        ["perfdmf", "book.adoc"], [], []⟩ := by
  constructor
  · apply (claim3_amended.1 ["just prose", "// comment"] (by decide)).2
    decide
  · exact claim3_amended.2 1 ⟨[], untitledFs, [], []⟩
      (PAGES_DIR ++ ["perfdmf", "book.adoc"]) "usersguide.adoc" 2
      ["perfdmf", "book.adoc"] (by decide) (by decide)

/-! ### Run invariants (claims C5 and C6) -/

/-- The only paths `create_alias_file` can ever write (the values of the
concrete alias table). -/
def aliasAbsPaths : List PathC :=
  [alias_abs_path "referenceguide/taudb-alias.adoc",
   alias_abs_path "referenceguide/installation-alias.adoc"]

def fsKeys (fs : FS) : List PathC := fs.map (·.1)

/-- The step invariant of page processing: the filesystem grows only by
alias stub paths; the visited set grows; every new nav entry has a
formatted depth in `1..MAX_NAV_DEPTH`; and the ghost trace grows by a
duplicate-free list of keys that were unvisited at entry and are visited
at exit. -/
def Conc (st st' : St) : Prop :=
  (∀ k, k ∈ fsKeys st.fs → k ∈ fsKeys st'.fs) ∧
  (∀ k, k ∈ fsKeys st'.fs → k ∈ fsKeys st.fs ∨ k ∈ aliasAbsPaths) ∧
  (∀ k, k ∈ st.visited → k ∈ st'.visited) ∧
  (∀ e, e ∈ st'.nav → e ∈ st.nav ∨ (1 ≤ e.level ∧ e.level ≤ MAX_NAV_DEPTH)) ∧
  (∃ new, st'.trace = st.trace ++ new ∧ new.Nodup ∧
    (∀ k ∈ new, k ∉ st.visited) ∧ (∀ k ∈ new, k ∈ st'.visited))

theorem Conc_refl (st : St) : Conc st st :=
  ⟨fun _ h => h, fun _ h => Or.inl h, fun _ h => h, fun _ h => Or.inl h,
   ⟨[], by simp, List.nodup_nil, by simp, by simp⟩⟩

theorem Conc_trans {s1 s2 s3 : St} (h12 : Conc s1 s2) (h23 : Conc s2 s3) :
    Conc s1 s3 := by
  obtain ⟨f12, b12, v12, n12, new1, ht1, nd1, dis1, in1⟩ := h12
  obtain ⟨f23, b23, v23, n23, new2, ht2, nd2, dis2, in2⟩ := h23
  refine ⟨fun k h => f23 k (f12 k h), ?_, fun k h => v23 k (v12 k h), ?_,
    ⟨new1 ++ new2, ?_, ?_, ?_, ?_⟩⟩
  · intro k h
    rcases b23 k h with h2 | h2
    · exact b12 k h2
    · exact Or.inr h2
  · intro e h
    rcases n23 e h with h2 | h2
    · exact n12 e h2
    · exact Or.inr h2
  · rw [ht2, ht1, List.append_assoc]
  · refine List.Nodup.append nd1 nd2 ?_
    intro k hk1 hk2
    exact dis2 k hk2 (in1 k hk1)
  · intro k hk
    rcases List.mem_append.mp hk with h | h
    · exact dis1 k h
    · intro hv
      exact dis2 k h (v12 k hv)
  · intro k hk
    rcases List.mem_append.mp hk with h | h
    · exact v23 k (in1 k h)
    · exact in2 k h

theorem fsKeys_map_write (fs : FS) (p : PathC) (v : List String) :
    fsKeys (fs.map (fun e => if e.1 == p then (p, v) else e)) = fsKeys fs := by
  unfold fsKeys
  rw [List.map_map]
  apply List.map_congr_left
  intro e _
  by_cases he : (e.1 == p) = true
  · simp [Function.comp, he, (beq_iff_eq.mp he).symm]
  · have he2 : (e.1 == p) = false := by simpa using he
    simp [Function.comp, he2]

theorem fsKeys_fsWrite_super (fs : FS) (p : PathC) (v : List String) (k : PathC)
    (h : k ∈ fsKeys fs) : k ∈ fsKeys (fsWrite fs p v) := by
  unfold fsWrite
  by_cases hf : ((fs.find? (fun e => e.1 == p)).isSome) = true
  · rw [if_pos hf, fsKeys_map_write]
    exact h
  · rw [if_neg hf]
    unfold fsKeys at h ⊢
    rw [List.map_append]
    exact List.mem_append_left _ h

theorem fsKeys_fsWrite_sub (fs : FS) (p : PathC) (v : List String) (k : PathC)
    (h : k ∈ fsKeys (fsWrite fs p v)) : k ∈ fsKeys fs ∨ k = p := by
  unfold fsWrite at h
  by_cases hf : ((fs.find? (fun e => e.1 == p)).isSome) = true
  · rw [if_pos hf, fsKeys_map_write] at h
    exact Or.inl h
  · rw [if_neg hf] at h
    unfold fsKeys at h
    rw [List.map_append] at h
    rcases List.mem_append.mp h with h2 | h2
    · exact Or.inl h2
    · simp only [List.map_cons, List.map_nil, List.mem_singleton] at h2
      exact Or.inr h2

theorem Conc_fs_write (st : St) (al x : String)
    (hal : al = "referenceguide/taudb-alias.adoc" ∨
      al = "referenceguide/installation-alias.adoc") :
    Conc st { st with fs := create_alias_file st.fs al x } := by
  refine ⟨?_, ?_, fun _ h => h, fun _ h => Or.inl h,
    ⟨[], by simp, List.nodup_nil, by simp, by simp⟩⟩
  · intro k h
    exact fsKeys_fsWrite_super _ _ _ _ h
  · intro k h
    rcases fsKeys_fsWrite_sub _ _ _ _ h with h2 | h2
    · exact Or.inl h2
    · subst h2
      unfold aliasAbsPaths
      rcases hal with h3 | h3 <;> (subst h3; simp)

theorem Conc_nav (st : St) (nav2 : List NavEntry)
    (h : ∀ e ∈ nav2, e ∈ st.nav ∨ (1 ≤ e.level ∧ e.level ≤ MAX_NAV_DEPTH)) :
    Conc st { st with nav := nav2 } :=
  ⟨fun _ h => h, fun _ h => Or.inl h, fun _ h => h, h,
   ⟨[], by simp, List.nodup_nil, by simp, by simp⟩⟩

theorem Conc_guard (st : St) (key : String × String) (hv : key ∉ st.visited) :
    Conc st { st with
      visited := key :: st.visited
      trace := st.trace ++ [key] } := by
  refine ⟨fun _ h => h, fun _ h => Or.inl h,
    fun k h => List.mem_cons_of_mem _ h, fun _ h => Or.inl h,
    ⟨[key], rfl, List.nodup_singleton _, ?_, ?_⟩⟩
  · intro k hk
    rw [List.mem_singleton] at hk
    subst hk
    exact hv
  · intro k hk
    rw [List.mem_singleton] at hk
    subst hk
    exact List.mem_cons_self _ _

theorem add_entry_mem (nav : List NavEntry) (lvl : Nat) (x t a2 : String) :
    ∀ e ∈ add_entry nav lvl x t a2,
      e ∈ nav ∨ (1 ≤ e.level ∧ e.level ≤ MAX_NAV_DEPTH) := by
  intro e he
  unfold add_entry at he
  rcases List.mem_append.mp he with h | h
  · exact Or.inl h
  · rw [List.mem_singleton] at h
    subst h
    refine Or.inr ⟨?_, ?_⟩
    · exact Nat.le_max_left 1 _
    · simp only [MAX_NAV_DEPTH]
      omega

theorem aliasChildEntries_mem (fs : FS) (f : PathC) (al : String) (cur : Nat) :
    ∀ e ∈ aliasChildEntries fs f al cur,
      1 ≤ e.level ∧ e.level ≤ MAX_NAV_DEPTH := by
  intro e he
  unfold aliasChildEntries at he
  rcases List.mem_filterMap.mp he with ⟨inc, _, hg⟩
  by_cases hc : ((get_title_and_anchor (readLines fs inc) false).1 == "" ||
      lowerS (get_title_and_anchor (readLines fs inc) false).1 == "untitled") = true
  · rw [if_pos hc] at hg
    cases hg
  · rw [if_neg hc] at hg
    cases hg
    simp only [MAX_NAV_DEPTH]
    constructor <;> omega

theorem sectionEntries_mem (cur : Nat) (fx ti an : String)
    (secs : List (Nat × String × String)) :
    ∀ e ∈ sectionEntries cur fx ti an secs,
      1 ≤ e.level ∧ e.level ≤ MAX_NAV_DEPTH := by
  intro e he
  unfold sectionEntries at he
  rcases List.mem_filterMap.mp he with ⟨s, _, hg⟩
  by_cases h1 : (s.2.1 == an || lowerS (strip s.2.2) == lowerS (strip ti)) = true
  · rw [if_pos h1] at hg
    cases hg
  · rw [if_neg h1] at hg
    by_cases h2 : cur + (s.1 - 2) ≤ MAX_NAV_DEPTH
    · rw [if_pos h2] at hg
      cases hg
      simp only [MAX_NAV_DEPTH]
      constructor
      · exact Nat.le_max_left 1 _
      · omega
    · rw [if_neg h2] at hg
      cases hg

/-- The nav value after the page entry and the in-page sections loop. -/
theorem nav_step_mem (nav : List NavEntry) (cur : Nat) (fx ti an : String)
    (secs : List (Nat × String × String)) :
    ∀ e ∈ sectionFold cur fx ti an secs (add_entry nav cur fx ti an),
      e ∈ nav ∨ (1 ≤ e.level ∧ e.level ≤ MAX_NAV_DEPTH) := by
  intro e he
  rw [sectionFold_spec] at he
  rcases List.mem_append.mp he with h | h
  · exact add_entry_mem nav cur fx ti an e h
  · exact Or.inr (sectionEntries_mem cur fx ti an secs e h)

theorem foldGo_conc (rec : PathC → String → Nat → St → Option St)
    (hrec : ∀ p mk lvl st st', rec p mk lvl st = some st' → Conc st st') :
    ∀ (incs : List PathC) (mk : String) (lvl : Nat) (st st' : St),
      foldIncludesGo rec incs mk lvl st = some st' → Conc st st' := by
  intro incs
  induction incs with
  | nil =>
    intro mk lvl st st' h
    simp only [foldIncludesGo] at h
    cases h
    exact Conc_refl st
  | cons i is ih =>
    intro mk lvl st st' h
    simp only [foldIncludesGo] at h
    by_cases hv : (pathStr i, mk) ∈ st.visited
    · rw [if_pos hv] at h
      exact ih mk lvl st st' h
    · rw [if_neg hv] at h
      rcases hr : rec i mk (min (lvl + 1) MAX_NAV_DEPTH)
          { st with
            visited := (pathStr i, mk) :: st.visited
            trace := st.trace ++ [(pathStr i, mk)] } with _ | st2
      · rw [hr] at h
        exact Option.noConfusion h
      · rw [hr] at h
        replace h : foldIncludesGo rec is mk lvl st2 = some st' := h
        exact Conc_trans (Conc_trans (Conc_guard st _ hv) (hrec _ _ _ _ _ hr))
          (ih mk lvl st2 st' h)

theorem nav_agg_mem (fs : FS) (f : PathC) (al : String) (cur : Nat)
    (nav : List NavEntry) (t a2 : String) :
    ∀ e ∈ process_aggregator_children_as_alias_sections fs f al cur
      (add_entry nav cur al t a2),
      e ∈ nav ∨ (1 ≤ e.level ∧ e.level ≤ MAX_NAV_DEPTH) := by
  intro e he
  rw [aggChildren_spec] at he
  rcases List.mem_append.mp he with h | h
  · exact add_entry_mem nav cur al t a2 e h
  · exact Or.inr (aliasChildEntries_mem fs f al cur e h)

/-- Every successful `process_page` call satisfies the step invariant. -/
theorem processPage_conc :
    ∀ (fuel : Nat) (p : PathC) (mk : String) (lvl : Nat) (st st' : St),
      processPage fuel p mk lvl st = some st' → Conc st st' := by
  intro fuel
  induction fuel with
  | zero =>
    intro p mk lvl st st' h
    exact Option.noConfusion h
  | succ f ih =>
    intro p mk lvl st st' h
    rcases hrel : relativeTo PAGES_DIR p with _ | xref
    · simp only [processPage, hrel] at h
      cases h
      exact Conc_refl st
    · rcases hra : (resolve_alias mk (pathStr xref)).2 with _ | al
      · have heq := resolve_alias_snd_none mk (pathStr xref) hra
        simp only [processPage, hrel, heq, Option.isSome_none, Bool.and_false,
          Bool.false_eq_true, if_false] at h
        by_cases htc : ((get_title_and_anchor (readLines st.fs p) false).1 == "" ||
            lowerS (get_title_and_anchor (readLines st.fs p) false).1 ==
              "untitled") = true
        · rw [if_pos htc] at h
          cases h
          exact Conc_refl st
        · rw [if_neg htc] at h
          by_cases hagg : is_aggregator_page st.fs p = true
          · rw [if_pos hagg] at h
            refine Conc_trans (Conc_nav st _ (nav_step_mem st.nav lvl
              (pathStr xref)
              (get_title_and_anchor (readLines st.fs p) false).1
              (get_title_and_anchor (readLines st.fs p) false).2
              (extract_section_headings st.fs p))) ?_
            exact foldGo_conc _ ih _ mk lvl _ st' h
          · rw [if_neg hagg] at h
            cases h
            exact Conc_nav st _ (nav_step_mem st.nav lvl (pathStr xref)
              (get_title_and_anchor (readLines st.fs p) false).1
              (get_title_and_anchor (readLines st.fs p) false).2
              (extract_section_headings st.fs p))
      · have heq := resolve_alias_snd_some mk (pathStr xref) al hra
        have halv : al = "referenceguide/taudb-alias.adoc" ∨
            al = "referenceguide/installation-alias.adoc" := by
          rcases resolve_alias_matched mk (pathStr xref) al heq with ⟨_, h2⟩ | ⟨_, h2⟩
          · exact Or.inl h2
          · exact Or.inr h2
        have c1 : Conc st { st with
            fs := create_alias_file st.fs al (pathStr xref) } :=
          Conc_fs_write st al (pathStr xref) halv
        simp only [processPage, hrel, heq, Option.isSome_some, Bool.and_true,
          Bool.false_eq_true, if_false] at h
        by_cases htc : ((get_title_and_anchor (readLines
            (create_alias_file st.fs al (pathStr xref)) p) false).1 == "" ||
            lowerS (get_title_and_anchor (readLines
              (create_alias_file st.fs al (pathStr xref)) p) false).1 ==
              "untitled") = true
        · rw [if_pos htc] at h
          cases h
          exact c1
        · rw [if_neg htc] at h
          by_cases hagg : is_aggregator_page
              (create_alias_file st.fs al (pathStr xref)) p = true
          · rw [if_pos hagg] at h
            cases h
            refine Conc_trans c1 (Conc_nav _ _ ?_)
            exact nav_agg_mem _ p al lvl st.nav _ _
          · rw [if_neg hagg, if_neg hagg] at h
            cases h
            refine Conc_trans c1 (Conc_nav _ _ ?_)
            exact nav_step_mem st.nav lvl al
              (get_title_and_anchor (readLines
                (create_alias_file st.fs al (pathStr xref)) p) false).1
              (get_title_and_anchor (readLines
                (create_alias_file st.fs al (pathStr xref)) p) false).2
              (extract_section_headings
                (create_alias_file st.fs al (pathStr xref)) p)

/-! ### Termination of the guarded traversal: the unvisited-key measure -/

theorem fsExists_mem_keys (fs : FS) (p : PathC) (h : fsExists fs p = true) :
    p ∈ fsKeys fs := by
  unfold fsExists fsFind at h
  rcases hf : fs.find? (fun e => e.1 == p) with _ | e
  · rw [hf] at h
    exact absurd h (by decide)
  · have hmem := List.mem_of_find?_eq_some hf
    have hpe : (e.1 == p) = true := by simpa using List.find?_some hf
    have hep : e.1 = p := by simpa using hpe
    exact hep ▸ List.mem_map_of_mem _ hmem

theorem extract_includes_keys (fs : FS) (f : PathC) :
    ∀ i ∈ extract_include_files fs f, i ∈ fsKeys fs := by
  intro i hi
  unfold extract_include_files at hi
  rcases List.mem_filterMap.mp hi with ⟨line, _, hg⟩
  rcases hfi : findInclude line.data with _ | rel
  · rw [hfi] at hg
    exact Option.noConfusion hg
  · rw [hfi] at hg
    replace hg :
        (if PARTIALS_DIR.isPrefixOf (joinResolve f.dropLast (strip rel)) &&
            !(PARTIALS_DIR == joinResolve f.dropLast (strip rel)) then none
         else if fsExists fs (joinResolve f.dropLast (strip rel)) then
           some (joinResolve f.dropLast (strip rel))
         else none) = some i := hg
    by_cases h1 : (PARTIALS_DIR.isPrefixOf (joinResolve f.dropLast (strip rel)) &&
        !(PARTIALS_DIR == joinResolve f.dropLast (strip rel))) = true
    · rw [if_pos h1] at hg
      exact Option.noConfusion hg
    · rw [if_neg h1] at hg
      by_cases h2 : fsExists fs (joinResolve f.dropLast (strip rel)) = true
      · rw [if_pos h2] at hg
        cases hg
        exact fsExists_mem_keys fs _ h2
      · rw [if_neg h2] at hg
        exact Option.noConfusion hg

/-- Every path component list the guarded loops can ever insert under a
given filesystem: the keys of existing files plus the two alias stub
paths, as xref strings. -/
def Ustrs (fs : FS) : List String :=
  (fsKeys fs).map pathStr ++ aliasAbsPaths.map pathStr

/-- The measure: how many candidate keys under master `mk` are not yet
in the visited set. -/
def M (st : St) (mk : String) : Nat :=
  ((Ustrs st.fs).toFinset.filter (fun s => (s, mk) ∉ st.visited)).card

theorem Ustrs_mono {a b : St} (h : Conc a b) :
    ∀ s ∈ Ustrs a.fs, s ∈ Ustrs b.fs := by
  intro s hs
  unfold Ustrs at hs ⊢
  rcases List.mem_append.mp hs with h1 | h1
  · rcases List.mem_map.mp h1 with ⟨k, hk, rfl⟩
    exact List.mem_append_left _ (List.mem_map_of_mem _ (h.1 k hk))
  · exact List.mem_append_right _ h1

theorem Ustrs_anti {a b : St} (h : Conc a b) :
    ∀ s ∈ Ustrs b.fs, s ∈ Ustrs a.fs := by
  intro s hs
  unfold Ustrs at hs ⊢
  rcases List.mem_append.mp hs with h1 | h1
  · rcases List.mem_map.mp h1 with ⟨k, hk, rfl⟩
    rcases h.2.1 k hk with h2 | h2
    · exact List.mem_append_left _ (List.mem_map_of_mem _ h2)
    · exact List.mem_append_right _ (List.mem_map_of_mem _ h2)
  · exact List.mem_append_right _ h1

theorem M_mono {a b : St} (h : Conc a b) (mk : String) : M b mk ≤ M a mk := by
  unfold M
  apply Finset.card_le_card
  intro s hs
  rw [Finset.mem_filter] at hs
  refine Finset.mem_filter.mpr ⟨List.mem_toFinset.mpr
    (Ustrs_anti h s (List.mem_toFinset.mp hs.1)), ?_⟩
  intro hvv
  exact hs.2 (h.2.2.1 _ hvv)

theorem M_guard_lt (st : St) (i : PathC) (mk : String)
    (hU : pathStr i ∈ Ustrs st.fs) (hv : (pathStr i, mk) ∉ st.visited) :
    M { st with
      visited := (pathStr i, mk) :: st.visited
      trace := st.trace ++ [(pathStr i, mk)] } mk < M st mk := by
  unfold M
  apply Finset.card_lt_card
  rw [Finset.ssubset_def]
  constructor
  · intro s hs
    rw [Finset.mem_filter] at hs ⊢
    exact ⟨hs.1, fun h2 => hs.2 (List.mem_cons_of_mem _ h2)⟩
  · intro hcon
    have h1 : pathStr i ∈ (Ustrs st.fs).toFinset.filter
        (fun s => (s, mk) ∉ st.visited) :=
      Finset.mem_filter.mpr ⟨List.mem_toFinset.mpr hU, hv⟩
    have h2 := hcon h1
    rw [Finset.mem_filter] at h2
    exact h2.2 (List.mem_cons_self _ _)

/-- The include loop succeeds at fuel `f` when the includes lie in the
candidate universe and the measure is at most `f` (each guard pass
strictly decreases the measure before the recursive call). -/
theorem foldTerm (f : Nat)
    (ihf : ∀ (p : PathC) (mk : String) (lvl : Nat) (st : St),
      M st mk < f → (processPage f p mk lvl st).isSome = true) :
    ∀ (incs : List PathC) (mk : String) (lvl : Nat) (st : St),
      (∀ i ∈ incs, pathStr i ∈ Ustrs st.fs) → M st mk ≤ f →
      (foldIncludesGo (processPage f) incs mk lvl st).isSome = true := by
  intro incs
  induction incs with
  | nil =>
    intro mk lvl st _ _
    rfl
  | cons i is ih =>
    intro mk lvl st hU hM
    simp only [foldIncludesGo]
    by_cases hv : (pathStr i, mk) ∈ st.visited
    · rw [if_pos hv]
      exact ih mk lvl st (fun j hj => hU j (List.mem_cons_of_mem _ hj)) hM
    · rw [if_neg hv]
      have hUi : pathStr i ∈ Ustrs st.fs := hU i (List.mem_cons_self _ _)
      have hlt : M { st with
          visited := (pathStr i, mk) :: st.visited
          trace := st.trace ++ [(pathStr i, mk)] } mk < f :=
        lt_of_lt_of_le (M_guard_lt st i mk hUi hv) hM
      have hsome := ihf i mk (min (lvl + 1) MAX_NAV_DEPTH) _ hlt
      rcases hr : processPage f i mk (min (lvl + 1) MAX_NAV_DEPTH)
          { st with
            visited := (pathStr i, mk) :: st.visited
            trace := st.trace ++ [(pathStr i, mk)] } with _ | st2
      · rw [hr] at hsome
        exact absurd hsome (by decide)
      · have hcg : Conc st st2 :=
          Conc_trans (Conc_guard st _ hv) (processPage_conc f i mk _ _ st2 hr)
        exact ih mk lvl st2
          (fun j hj => Ustrs_mono hcg _ (hU j (List.mem_cons_of_mem _ hj)))
          (le_trans (M_mono hcg mk) hM)

/-- `process_page` succeeds whenever the fuel exceeds the number of
unvisited candidate keys: the Python recursion, guarded only by the
visited set, terminates on every finite filesystem. -/
theorem ppTerm : ∀ (fuel : Nat) (p : PathC) (mk : String) (lvl : Nat) (st : St),
    M st mk < fuel → (processPage fuel p mk lvl st).isSome = true := by
  intro fuel
  induction fuel with
  | zero =>
    intro p mk lvl st h
    exact absurd h (Nat.not_lt_zero _)
  | succ f ih =>
    intro p mk lvl st hM
    rcases hrel : relativeTo PAGES_DIR p with _ | xref
    · simp only [processPage, hrel, Option.isSome_some]
    · rcases hra : (resolve_alias mk (pathStr xref)).2 with _ | al
      · have heq := resolve_alias_snd_none mk (pathStr xref) hra
        simp only [processPage, hrel, heq, Option.isSome_none, Bool.and_false,
          Bool.false_eq_true, if_false]
        by_cases htc : ((get_title_and_anchor (readLines st.fs p) false).1 == "" ||
            lowerS (get_title_and_anchor (readLines st.fs p) false).1 ==
              "untitled") = true
        · rw [if_pos htc]
          rfl
        · rw [if_neg htc]
          by_cases hagg : is_aggregator_page st.fs p = true
          · rw [if_pos hagg]
            exact foldTerm f ih (extract_include_files st.fs p) mk lvl _
              (fun i hi => List.mem_append_left _
                (List.mem_map_of_mem _ (extract_includes_keys st.fs p i hi)))
              (Nat.lt_succ_iff.mp hM)
          · rw [if_neg hagg]
            rfl
      · have heq := resolve_alias_snd_some mk (pathStr xref) al hra
        simp only [processPage, hrel, heq, Option.isSome_some, Bool.and_true,
          Bool.false_eq_true, if_false]
        by_cases htc : ((get_title_and_anchor (readLines
            (create_alias_file st.fs al (pathStr xref)) p) false).1 == "" ||
            lowerS (get_title_and_anchor (readLines
              (create_alias_file st.fs al (pathStr xref)) p) false).1 ==
              "untitled") = true
        · rw [if_pos htc]
          rfl
        · rw [if_neg htc]
          by_cases hagg : is_aggregator_page
              (create_alias_file st.fs al (pathStr xref)) p = true
          · rw [if_pos hagg]
            rfl
          · rw [if_neg hagg, if_neg hagg]
            rfl

/-- The include loop succeeds at fuel `f` for an arbitrary include list
(for example `main`'s loop over a master's direct includes) as soon as
`M st mk < f`. -/
theorem foldTermAny : ∀ (incs : List PathC) (f : Nat) (mk : String) (lvl : Nat)
    (st : St), M st mk < f →
    (foldIncludesGo (processPage f) incs mk lvl st).isSome = true := by
  intro incs
  induction incs with
  | nil =>
    intro f mk lvl st _
    rfl
  | cons i is ih =>
    intro f mk lvl st hM
    simp only [foldIncludesGo]
    by_cases hv : (pathStr i, mk) ∈ st.visited
    · rw [if_pos hv]
      exact ih f mk lvl st hM
    · rw [if_neg hv]
      have hMg : M { st with
          visited := (pathStr i, mk) :: st.visited
          trace := st.trace ++ [(pathStr i, mk)] } mk < f :=
        lt_of_le_of_lt (M_mono (Conc_guard st _ hv) mk) hM
      have hsome := ppTerm f i mk (min (lvl + 1) MAX_NAV_DEPTH) _ hMg
      rcases hr : processPage f i mk (min (lvl + 1) MAX_NAV_DEPTH)
          { st with
            visited := (pathStr i, mk) :: st.visited
            trace := st.trace ++ [(pathStr i, mk)] } with _ | st2
      · rw [hr] at hsome
        exact absurd hsome (by decide)
      · have hcg : Conc st st2 :=
          Conc_trans (Conc_guard st _ hv) (processPage_conc f i mk _ _ st2 hr)
        exact ih f mk lvl st2 (lt_of_le_of_lt (M_mono hcg mk) hM)

/-! ### Claims C5 and C6 -/

/-- C5: every NavEntry appended by a successful `process_page` run — the
entries of the final state beyond those already present at the call —
has a formatted nesting depth between 1 and `MAX_NAV_DEPTH` inclusive;
and an in-page section heading whose computed depth
`current_level + (level - 2)` exceeds `MAX_NAV_DEPTH` is dropped
entirely by the sections loop (removing it from the section list leaves
the loop's output unchanged), not clamped down to the maximum. -/
theorem claim5_depth_bounds :
    (∀ (fuel : Nat) (p : PathC) (mk : String) (lvl : Nat) (st st' : St),
        processPage fuel p mk lvl st = some st' →
        ∀ e ∈ st'.nav, e ∈ st.nav ∨ (1 ≤ e.level ∧ e.level ≤ MAX_NAV_DEPTH)) ∧
    (∀ (cur : Nat) (fx ti an : String) (s : Nat × String × String)
        (pre post : List (Nat × String × String)) (nav : List NavEntry),
        MAX_NAV_DEPTH < cur + (s.1 - 2) →
        sectionFold cur fx ti an (pre ++ s :: post) nav =
          sectionFold cur fx ti an (pre ++ post) nav) := by
  constructor
  · intro fuel p mk lvl st st' h
    exact (processPage_conc fuel p mk lvl st st' h).2.2.2.1
  · intro cur fx ti an s pre post nav hdeep
    have hg : (if s.2.1 == an || lowerS (strip s.2.2) == lowerS (strip ti) then
          none
        else if cur + (s.1 - 2) ≤ MAX_NAV_DEPTH then
          some (⟨max 1 (min (cur + (s.1 - 2)) MAX_NAV_DEPTH), fx, s.2.2, s.2.1⟩ :
            NavEntry)
        else none) = none := by
      by_cases h1 : (s.2.1 == an || lowerS (strip s.2.2) == lowerS (strip ti)) = true
      · rw [if_pos h1]
      · rw [if_neg h1, if_neg (by omega : ¬(cur + (s.1 - 2) ≤ MAX_NAV_DEPTH))]
    rw [sectionFold_spec, sectionFold_spec]
    unfold sectionEntries
    simp only [List.filterMap_append, List.filterMap_cons, hg]

/-- A one-page filesystem whose page has two real depth-3 sections and
one section repeating the page title. -/
def secFs : FS := [(PAGES_DIR ++ ["p.adoc"],
  ["== Page", "[[sid]]", "=== Sub One", "=== Sub Two", "=== Page"])]

/-- C5 witness: processed at the maximum level, the page emits only its
own entry with depth inside `1..4`, and its depth-3 sections (computed
depth 5) are dropped: removing one from the section list does not change
the sections-loop output. -/
theorem claim5_witness :
    ((⟨4, "p.adoc", "Page", "page"⟩ : NavEntry) ∈ ([] : List NavEntry) ∨
      (1 ≤ (⟨4, "p.adoc", "Page", "page"⟩ : NavEntry).level ∧
        (⟨4, "p.adoc", "Page", "page"⟩ : NavEntry).level ≤ MAX_NAV_DEPTH)) ∧
    sectionFold 4 "p.adoc" "Page" "page"
        ([] ++ (3, "sub-two", "Sub Two") :: [(3, "page", "Page")]) [] =
      sectionFold 4 "p.adoc" "Page" "page" ([] ++ [(3, "page", "Page")]) [] :=
  ⟨claim5_depth_bounds.1 1 (PAGES_DIR ++ ["p.adoc"]) "m" 4
      ⟨[], secFs, [], []⟩ ⟨[⟨4, "p.adoc", "Page", "page"⟩], secFs, [], []⟩
      (by decide) ⟨4, "p.adoc", "Page", "page"⟩ (by decide),
   claim5_depth_bounds.2 4 "p.adoc" "Page" "page" (3, "sub-two", "Sub Two")
      [] [(3, "page", "Page")] [] (by decide)⟩

/-- C6: in one run each (resolved child path string, master identifier)
pair is expanded at most once — across any successful include loop the
ghost trace of keys inserted at the recursion guards extends by a
duplicate-free list of keys that were unvisited at entry and visited at
exit — and the guarded traversal terminates on every finite filesystem,
cyclic include graphs included: some fuel yields a successful run (the
Python recursion consumes no resource besides the visited set, so this
is its termination). -/
theorem claim6_visited_once_and_termination :
    (∀ (fuel : Nat) (incs : List PathC) (mk : String) (lvl : Nat) (st st' : St),
        foldIncludes fuel incs mk lvl st = some st' →
        ∃ new, st'.trace = st.trace ++ new ∧ new.Nodup ∧
          (∀ k ∈ new, k ∉ st.visited) ∧ (∀ k ∈ new, k ∈ st'.visited)) ∧
    (∀ (incs : List PathC) (mk : String) (lvl : Nat) (st : St),
        ∃ (fuel : Nat) (st' : St),
          foldIncludes fuel incs mk lvl st = some st') := by
  constructor
  · intro fuel incs mk lvl st st' h
    exact (foldGo_conc (processPage fuel) (processPage_conc fuel)
      incs mk lvl st st' h).2.2.2.2
  · intro incs mk lvl st
    refine ⟨M st mk + 1, ?_⟩
    have h := foldTermAny incs (M st mk + 1) mk lvl st (Nat.lt_succ_self _)
    rcases hr : foldIncludesGo (processPage (M st mk + 1)) incs mk lvl st
        with _ | st'
    · rw [hr] at h
      exact absurd h (by decide)
    · exact ⟨st', hr⟩

/-- A cyclic include graph: `a.adoc` includes `b.adoc` and vice versa. -/
def cycFs : FS :=
  [(PAGES_DIR ++ ["a.adoc"], ["== A", "include::b.adoc[]"]),
   (PAGES_DIR ++ ["b.adoc"], ["== B", "include::a.adoc[]"])]

def cycNav : List NavEntry :=
  [⟨2, "a.adoc", "A", "a"⟩, ⟨3, "b.adoc", "B", "b"⟩]

def cycVisited : List (String × String) :=
  [("src/modules/ROOT/pages/b.adoc", "m"), ("src/modules/ROOT/pages/a.adoc", "m")]

def cycTrace : List (String × String) :=
  [("src/modules/ROOT/pages/a.adoc", "m"), ("src/modules/ROOT/pages/b.adoc", "m")]

/-- C6 witness: on the two-page cyclic graph the traversal from an empty
state terminates; its trace is the duplicate-free two-key list, each key
freshly visited, and for the same start state some fuel succeeds. -/
theorem claim6_witness :
    (∃ new, cycTrace = [] ++ new ∧ new.Nodup ∧
        (∀ k ∈ new, k ∉ ([] : List (String × String))) ∧
        (∀ k ∈ new, k ∈ cycVisited)) ∧
    (∃ (fuel : Nat) (st' : St),
        foldIncludes fuel [PAGES_DIR ++ ["a.adoc"]] "m" 1 ⟨[], cycFs, [], []⟩ =
          some st') :=
  ⟨claim6_visited_once_and_termination.1 3 [PAGES_DIR ++ ["a.adoc"]] "m" 1
      ⟨[], cycFs, [], []⟩ ⟨cycNav, cycFs, cycVisited, cycTrace⟩ (by decide),
   claim6_visited_once_and_termination.2 [PAGES_DIR ++ ["a.adoc"]] "m" 1
      ⟨[], cycFs, [], []⟩⟩

end GenNav
